import Mathlib

/-!
Verification of the SWE-bench-Live baseline pipeline scripts.

We give a shallow embedding of the four Python scripts under `baseline/`:

* `sf_make_judge_f2p_folder_from_organize_jsonl.py` — the judged dual-run
  test evaluator (`_load_jsonl`, `_join_cmds`, `_write_text`, `run_variant`,
  `_run_one`).  External effects (the container runtime, the log parser and
  the filesystem) are modelled by a `World` record of fallible call results,
  and every embedded operation returns its result together with the list of
  external events it performed, so that resource-usage invariants (acquire /
  cleanup pairing, artifact writes) are provable.
* `sbl_step3_prepare_launch_dataset.py` — language inference from diff
  headers (`infer_language_from_diff_text`).
* `sbl_count_f2p_from_validated_instances.py` — the fail-to-pass report.
* `sbl_prepare_pull2issue_from_issue_pr_map.py` — pull2issue file content.

Python string primitives used by the scripts (`str.strip`, `str.rstrip`,
`str.lower`, `pathlib.Path.suffix`, …) are embedded first.
-/

namespace SBL

/-- Python's default whitespace set for `str.strip()` / `str.rstrip()`:
space, tab, newline, carriage return, vertical tab, form feed. -/
def isPyWs (c : Char) : Bool :=
  c = ' ' || c = '\t' || c = '\n' || c = '\x0d' || c = '\x0b' || c = '\x0c'

/-- `str.rstrip()` on the character list: drop trailing whitespace. -/
def rstripList (l : List Char) : List Char :=
  (l.reverse.dropWhile isPyWs).reverse

/-- Python `s.rstrip()`. -/
def pyRstrip (s : String) : String :=
  ⟨rstripList s.data⟩

/-- Python `s.strip()`: drop leading and trailing whitespace. -/
def pyStrip (s : String) : String :=
  ⟨rstripList (s.data.dropWhile isPyWs)⟩

/-- Python `s.strip(chars)`: drop leading and trailing characters drawn
from `chars`. -/
def pyStripChars (s : String) (chars : List Char) : String :=
  let f : Char → Bool := fun c => chars.contains c
  ⟨((s.data.dropWhile f).reverse.dropWhile f).reverse⟩

/-- Python `s.lower()` (ASCII case mapping; the statuses and extensions the
scripts compare are ASCII). -/
def pyLower (s : String) : String :=
  ⟨s.data.map Char.toLower⟩

/-! ## `_load_jsonl` (sf_make_judge_f2p_folder_from_organize_jsonl.py)

```python
def _load_jsonl(path: Path) -> list[dict[str, Any]]:
    out: list[dict[str, Any]] = []
    with path.open("r", encoding="utf-8") as f:
        for lineno, line in enumerate(f, start=1):
            s = line.strip()
            if not s:
                continue
            try:
                out.append(json.loads(s))
            except json.JSONDecodeError as e:
                raise SystemExit(f"Invalid JSON on line {lineno} of {path}: {e}") from e
    return out
```

`json.loads` is external; we abstract it as `parse : String → Except String J`
(returning the decode-error text on failure).  The file handle iteration is
the list of the file's lines. -/

/-- The `SystemExit` message raised on a malformed line. -/
def invalidJsonMsg (lineno : Nat) (path : String) (e : String) : String :=
  "Invalid JSON on line " ++ toString lineno ++ " of " ++ path ++ ": " ++ e

/-- Tail of `_load_jsonl`'s loop, carrying the 1-based line counter. -/
def loadJsonlAux {J : Type} (parse : String → Except String J) (path : String) :
    Nat → List String → Except String (List J)
  | _, [] => .ok []
  | lineno, line :: rest =>
    let s := pyStrip line
    if s = "" then
      loadJsonlAux parse path (lineno + 1) rest
    else
      match parse s with
      | .error e => .error (invalidJsonMsg lineno path e)
      | .ok v =>
        match loadJsonlAux parse path (lineno + 1) rest with
        | .error e => .error e
        | .ok out => .ok (v :: out)

/-- `_load_jsonl`: parse every non-blank line, in order; the first line that
fails to parse aborts the whole load with a message naming the file and the
1-based line number. -/
def loadJsonl {J : Type} (parse : String → Except String J) (path : String)
    (lines : List String) : Except String (List J) :=
  loadJsonlAux parse path 1 lines

/-! ## `_join_cmds`

```python
def _join_cmds(cmds: Any) -> str:
    if cmds is None: return ""
    if isinstance(cmds, str): return cmds.strip()
    if isinstance(cmds, list):
        parts = []
        for c in cmds:
            if c is None: continue
            s = str(c).strip()
            if s: parts.append(s)
        return " ; ".join(parts)
    return str(cmds).strip()
```

The JSON values that reach `_join_cmds` are `null`, a string, or a list
whose elements are `null` or strings; `CmdsVal` covers those shapes. -/

/-- The shapes a `*_cmds` JSON field takes: absent/null, a string, or a
list of (possibly null) strings. -/
inductive CmdsVal
  | pynone
  | pystr (s : String)
  | pylist (xs : List (Option String))
deriving DecidableEq, Repr

/-- `_join_cmds`. -/
def joinCmds : CmdsVal → String
  | .pynone => ""
  | .pystr s => pyStrip s
  | .pylist xs =>
    let parts := xs.filterMap (fun c =>
      match c with
      | none => none
      | some cstr =>
        let s := pyStrip cstr
        if s = "" then none else some s)
    " ; ".intercalate parts

/-! ## The evaluator's external world

`run_variant` / `_run_one` call into the container runtime
(`SetupRuntime.from_launch_image`, `apply_patch`, `send_command`,
`cleanup`), the log-status classifier (`run_parser`) and the filesystem
(`Path.exists`, `Path.mkdir`, `Path.write_text`).  Each call either
returns a value or raises a Python exception; a `World` fixes the outcome
of every such call, and each embedded operation also returns the ordered
list of external calls (events) it performed, so acquire/cleanup pairing
and artifact writes are observable. -/

/-- A raised Python exception: its class name and message. -/
structure PyErr where
  name : String
  msg : String
deriving DecidableEq, Repr

/-- `f"{type(e).__name__}: {e}"`. -/
def PyErr.render (e : PyErr) : String := e.name ++ ": " ++ e.msg

/-- One external call performed by the evaluator.  `rename` is never
emitted by the embedded code; it exists so that the spec's
"write-then-rename" protocol is expressible over the same vocabulary. -/
inductive Ev
  | acquire (image instanceId platform : String) (timeoutS : Nat)
  | applyPatch (diff : String)
  | sendCommand (cmd : String)
  | runParser (parserId raw : String)
  | cleanup
  | mkdirParents (path : String)
  | writeFile (path text : String)
  | rename (src dst : String)
deriving DecidableEq, Repr

/-- Outcomes of the external calls.  `sendCommandRes` yields the command's
captured output (`res.output`); `runParserRes` yields the test-name →
status mapping as an association list (`dict` insertion order). -/
structure World where
  fromLaunchImage : String → String → Except PyErr Unit
  applyPatchRes : String → Except PyErr Unit
  sendCommandRes : String → Except PyErr String
  runParserRes : String → String → Except PyErr (List (String × String))
  cleanupRes : Except PyErr Unit
  pathExists : String → Bool
  mkdirRes : String → Except PyErr Unit
  writeTextRes : String → String → Except PyErr Unit

/-- Sequence two fallible, event-producing computations: on error the
exception propagates and later events never happen (Python exception
flow). -/
def evSeq {α β : Type} (x : Except PyErr α × List Ev)
    (f : α → Except PyErr β × List Ev) : Except PyErr β × List Ev :=
  match x with
  | (.error e, tr) => (.error e, tr)
  | (.ok a, tr) =>
    let y := f a
    (y.1, tr ++ y.2)

/-! ## `run_variant` (closure inside `_run_one`) -/

/-- `any(str(v).lower() == "fail" for v in status_map.values())`. -/
def hasFailStatus (statusMap : List (String × String)) : Bool :=
  statusMap.any (fun kv => pyLower kv.2 = "fail")

/-- `raw.rstrip() + "\n" + f"echo OMNIGRIL_EXIT_CODE={exit_code}\n"` with
`exit_code = 1 if has_fail else 0`. -/
def serializeVariantOutput (raw : String) (statusMap : List (String × String)) : String :=
  let exitCode : Nat := if hasFailStatus statusMap then 1 else 0
  pyRstrip raw ++ "\n" ++ "echo OMNIGRIL_EXIT_CODE=" ++ toString exitCode ++ "\n"

/-- The `try` body of `run_variant`: applies `test_patch` (if non-blank),
applies the solution patch (if requested and non-blank), runs the rebuild
command (if non-empty), runs the test command, fetches the raw log with
the print command, classifies it, and serializes the outcome. -/
def runVariantBody (w : World)
    (testPatch patch rebuildCmd testCmd printCmd parserId : String)
    (applySolution : Bool) : Except PyErr String × List Ev :=
  evSeq (if pyStrip testPatch = "" then (.ok (), [])
         else (w.applyPatchRes testPatch, [Ev.applyPatch testPatch])) fun _ =>
  evSeq (if applySolution ∧ pyStrip patch ≠ ""
         then (w.applyPatchRes patch, [Ev.applyPatch patch])
         else (.ok (), [])) fun _ =>
  evSeq (if rebuildCmd = "" then (.ok (), [])
         else ((w.sendCommandRes rebuildCmd).map (fun _ => ()),
               [Ev.sendCommand rebuildCmd])) fun _ =>
  evSeq ((w.sendCommandRes testCmd).map (fun _ => ()), [Ev.sendCommand testCmd]) fun _ =>
  evSeq (w.sendCommandRes printCmd, [Ev.sendCommand printCmd]) fun raw =>
  evSeq (w.runParserRes parserId raw, [Ev.runParser parserId raw]) fun statusMap =>
  (.ok (serializeVariantOutput raw statusMap), [])

/-- `run_variant`: acquire a fresh container from the image, run the body,
and in a `finally` call `container.cleanup()` whose own exception is
swallowed (`try: container.cleanup() except Exception: pass`), so the body
result — success or raised error — is returned/re-raised unchanged after
the cleanup call. -/
def runVariant (w : World) (image instanceId platform : String) (timeoutS : Nat)
    (testPatch patch rebuildCmd testCmd printCmd parserId : String)
    (applySolution : Bool) : Except PyErr String × List Ev :=
  match w.fromLaunchImage image instanceId with
  | .error e => (.error e, [Ev.acquire image instanceId platform timeoutS])
  | .ok _ =>
    let body := runVariantBody w testPatch patch rebuildCmd testCmd printCmd
      parserId applySolution
    (body.1, Ev.acquire image instanceId platform timeoutS :: body.2 ++ [Ev.cleanup])

/-! ## `_write_text` and `_run_one` -/

/-- `pathlib` parent of the artifact paths `_write_text` receives. -/
def parentDir (p : String) : String :=
  let comps := p.splitOn "/"
  if comps.length ≤ 1 then "." else "/".intercalate comps.dropLast

/-- `_write_text`: `path.parent.mkdir(parents=True, exist_ok=True)` then
`path.write_text(text, ...)` — a direct write to the final path, not a
write-then-rename. -/
def writeText (w : World) (path text : String) : Except PyErr Unit × List Ev :=
  match w.mkdirRes (parentDir path) with
  | .error e => (.error e, [Ev.mkdirParents (parentDir path)])
  | .ok _ => (w.writeTextRes path text,
              [Ev.mkdirParents (parentDir path), Ev.writeFile path text])

def PREV_FILE_NAME : String := "test_output_prev_apply.txt"
def AFTER_FILE_NAME : String := "test_output_after_apply.txt"

/-- One input row as `_run_one` reads it: each `instance.get(key)` is
`none` when the key is absent or null.  Field names follow the JSON keys
(`instanceId` ↦ "instance_id", `dockerImage` ↦ "docker_image",
`logParserId` ↦ "log_parser", `parserAlt` ↦ "parser", …). -/
structure Instance where
  instanceId : Option String
  dockerImage : Option String
  image : Option String
  rebuildCmds : CmdsVal
  testCmds : CmdsVal
  printCmds : CmdsVal
  logParserId : Option String
  parserAlt : Option String
  testPatch : Option String
  patch : Option String
deriving Repr

/-- `str(x or "")` for an optional string: `None` becomes `""`. -/
def getOrEmpty : Option String → String
  | none => ""
  | some s => s

/-- Python truthiness of an optional string: `None` and `""` are falsy. -/
def truthyStr : Option String → Bool
  | none => false
  | some s => s != ""

/-- Python `a or b` on optional strings. -/
def pyOr (a b : Option String) : Option String :=
  if truthyStr a then a else b

/-- `instance.get("log_parser", instance.get("parser", "")) or ""`. -/
def parserOf (inst : Instance) : String :=
  inst.logParserId.getD (inst.parserAlt.getD "")

/-- The `try` block of `_run_one`: run the `prev` variant, run the `after`
variant, then write both artifacts; any raised error short-circuits. -/
def runOneTry (w : World) (image instanceId platform : String) (timeoutS : Nat)
    (testPatch patch rebuildCmd testCmd printCmd parserId : String)
    (prevPath afterPath : String) : Except PyErr Unit × List Ev :=
  evSeq (runVariant w image instanceId platform timeoutS testPatch patch
          rebuildCmd testCmd printCmd parserId false) fun prevOut =>
  evSeq (runVariant w image instanceId platform timeoutS testPatch patch
          rebuildCmd testCmd printCmd parserId true) fun afterOut =>
  evSeq (writeText w prevPath prevOut) fun _ =>
  writeText w afterPath afterOut

/-- The `except` block of `_run_one`: a "best effort" diagnostic —
`inst_out.mkdir(...)` then `_write_text(inst_out / "error.txt", ...)` —
but both calls are unguarded, so a failure in either escapes `_run_one`
instead of being swallowed; on success the `error` disposition with the
rendered message is returned.  `tr` is the trace accumulated by the `try`
block before it raised `e`. -/
def runOneRescue (w : World) (instOut : String) (e : PyErr) (tr : List Ev) :
    Except PyErr (String × Option String) × List Ev :=
  match w.mkdirRes instOut with
  | .error e2 => (.error e2, tr ++ [Ev.mkdirParents instOut])
  | .ok _ =>
    match writeText w (instOut ++ "/error.txt") (e.render ++ "\n") with
    | (.error e2, tr2) => (.error e2, tr ++ Ev.mkdirParents instOut :: tr2)
    | (.ok _, tr2) => (.ok ("error", some e.render),
                       tr ++ Ev.mkdirParents instOut :: tr2)

/-- `_run_one`.  The outer `Except` is the worker's own exception channel:
`.ok (status, msg)` is a normal return, `.error e` an exception escaping
`_run_one` (which `fut.result()` re-raises in `main`). -/
def runOne (w : World) (inst : Instance) (platform : String) (outDir : String)
    (timeoutS : Nat) (overwrite : Bool) :
    Except PyErr (String × Option String) × List Ev :=
  let instanceId := getOrEmpty inst.instanceId
  if instanceId = "" then (.ok ("error", some "missing instance_id"), [])
  else
    let instOut := outDir ++ "/" ++ instanceId
    let prevPath := instOut ++ "/" ++ PREV_FILE_NAME
    let afterPath := instOut ++ "/" ++ AFTER_FILE_NAME
    if ¬overwrite ∧ w.pathExists prevPath ∧ w.pathExists afterPath then
      (.ok ("skip", none), [])
    else
      let image := pyOr inst.dockerImage inst.image
      if ¬ truthyStr image then (.ok ("error", some "missing docker_image"), [])
      else
        let rebuildCmd := joinCmds inst.rebuildCmds
        let testCmd := joinCmds inst.testCmds
        let printCmd := joinCmds inst.printCmds
        let parserId := parserOf inst
        let testPatch := getOrEmpty inst.testPatch
        let patch := getOrEmpty inst.patch
        if testCmd = "" then (.ok ("error", some "missing test_cmds"), [])
        else if printCmd = "" then
          (.ok ("error", some "missing print_cmds (needed to judge pass/fail)"), [])
        else if pyStrip parserId = "" then
          (.ok ("error", some "missing log_parser/parser (needed to judge pass/fail)"), [])
        else
          let imageS := getOrEmpty image
          let tryRes : Except PyErr Unit × List Ev :=
            runOneTry w imageS instanceId platform timeoutS testPatch patch
              rebuildCmd testCmd printCmd parserId prevPath afterPath
          match tryRes with
          | (.ok _, tr) => (.ok ("ok", none), tr)
          | (.error e, tr) => runOneRescue w instOut e tr

/-! ## Concrete worlds and instances used by witnesses -/

/-- A world in which every external call succeeds: commands echo their
text, and the classifier reports one passing and one failing test. -/
def okWorld : World where
  fromLaunchImage := fun _ _ => .ok ()
  applyPatchRes := fun _ => .ok ()
  sendCommandRes := fun c => .ok ("ran " ++ c ++ "  \n")
  runParserRes := fun _ _ => .ok [("test_a", "PASS"), ("test_b", "Fail")]
  cleanupRes := .ok ()
  pathExists := fun _ => false
  mkdirRes := fun _ => .ok ()
  writeTextRes := fun _ _ => .ok ()

/-- A fully populated instance record. -/
def fullInstance : Instance where
  instanceId := some "repo__x-1"
  dockerImage := some "repolaunch/dev:x"
  image := none
  rebuildCmds := .pylist [some "make build"]
  testCmds := .pylist [some "make test"]
  printCmds := .pylist [some "cat /tmp/test.log"]
  logParserId := some "pytest"
  parserAlt := none
  testPatch := some "diff --git a/t.py b/t.py\n"
  patch := some "diff --git a/s.py b/s.py\n"

/-- The all-success world with every artifact path already present on
disk. -/
def allExistsWorld : World :=
  { okWorld with pathExists := fun _ => true }

/-- An instance record carrying only an `instance_id`; every other field
is absent. -/
def idOnlyInstance : Instance where
  instanceId := some "repo__x-1"
  dockerImage := none
  image := none
  rebuildCmds := .pynone
  testCmds := .pynone
  printCmds := .pynone
  logParserId := none
  parserAlt := none
  testPatch := none
  patch := none

/-- An instance record with an image but no `test_cmds`. -/
def noTestCmdsInstance : Instance :=
  { idOnlyInstance with dockerImage := some "repolaunch/dev:x" }

/-- A world whose command execution times out and whose file writes fail
(a full disk while the worker records its diagnostic). -/
def diagFailWorld : World :=
  { okWorld with
    sendCommandRes := fun _ => .error ⟨"CommandTimeout", "timed out"⟩
    writeTextRes := fun _ _ => .error ⟨"OSError", "No space left on device"⟩ }

/-! ## `infer_language_from_diff_text` (sbl_step3_prepare_launch_dataset.py)

```python
DIFF_PATH_RE = re.compile(r"^diff --git a/(.*?) b/.*?$", re.MULTILINE)
```
With `MULTILINE`, `^`/`$` anchor at line boundaries and `.` never crosses a
newline, so the regex matches per line; the lazy group captures the text
between the leading `diff --git a/` and the first ` b/` of the line. -/

/-- The `EXT_TO_LANG` table, in source order. -/
def EXT_TO_LANG : List (String × String) :=
  [(".py", "Python"), (".ipynb", "Python"),
   (".js", "JS/TS"), (".jsx", "JS/TS"), (".ts", "JS/TS"), (".tsx", "JS/TS"),
   (".go", "Go"), (".rs", "Rust"),
   (".java", "Java"), (".kt", "Java"),
   (".cs", "C#"),
   (".c", "C"), (".h", "C"),
   (".cc", "C++"), (".cpp", "C++"), (".cxx", "C++"), (".hpp", "C++"), (".hh", "C++")]

/-- `EXT_TO_LANG.get(ext)`. -/
def extToLang (ext : String) : Option String :=
  (EXT_TO_LANG.find? (fun kv => kv.1 == ext)).map Prod.snd

/-- Split `l` at the first occurrence of `pat`: the part before it, when
`pat` occurs (the lazy `(.*?)` group stops at the first ` b/`). -/
def splitAtFirst (pat : List Char) : List Char → Option (List Char)
  | [] => if pat.isEmpty then some [] else none
  | c :: rest =>
    if pat.isPrefixOf (c :: rest) then some []
    else (splitAtFirst pat rest).map (fun pre => c :: pre)

/-- `DIFF_PATH_RE` applied to one line: if the line starts with
`diff --git a/` and contains ` b/` later, the captured path is the text
between them. -/
def diffHeaderCapture (line : String) : Option String :=
  let pre := "diff --git a/".data
  if pre.isPrefixOf line.data then
    (splitAtFirst " b/".data (line.data.drop pre.length)).map (fun cs => ⟨cs⟩)
  else none

/-- Split a character list on a separator character (`str.split(sep)`
semantics: n separators yield n+1 pieces). -/
def splitOnChar (sep : Char) : List Char → List (List Char)
  | [] => [[]]
  | c :: rest =>
    match splitOnChar sep rest with
    | [] => [[]]
    | piece :: pieces =>
      if c = sep then [] :: piece :: pieces else (c :: piece) :: pieces

/-- `DIFF_PATH_RE.findall(txt)`: all captures, line by line. -/
def diffPaths (txt : String) : List String :=
  (splitOnChar '\n' txt.data).filterMap (fun lcs => diffHeaderCapture ⟨lcs⟩)

/-- `pathlib.PurePosixPath(p).name`: the last path component (empty and
`.` components dropped). -/
def pathName (p : String) : String :=
  let comps := (splitOnChar '/' p.data).filter
    (fun cs => cs != ([] : List Char) && cs != ['.'])
  ⟨comps.getLast?.getD []⟩

/-- Offset of the first '.' in a character list. -/
def firstDotIdx : List Char → Option Nat
  | [] => none
  | c :: rest =>
    if c = '.' then some 0 else (firstDotIdx rest).map (fun i => i + 1)

/-- `Path(p).suffix`: from the last dot of the name, when that dot is
neither the name's first nor last character. -/
def pathSuffix (p : String) : String :=
  let cs := (pathName p).data
  match firstDotIdx cs.reverse with
  | none => ""
  | some rj =>
    let i := cs.length - 1 - rj
    if 0 < i ∧ i < cs.length - 1 then ⟨cs.drop i⟩ else ""

/-- One captured path, as counted: strip whitespace and quotes, take the
lowercased suffix; `none` when the suffix is empty (`if suffix:`). -/
def extOfPath (p : String) : Option String :=
  let q := pyStripChars (pyStripChars (pyStrip p) ['"']) [Char.ofNat 39]
  let suffix := pyLower (pathSuffix q)
  if suffix = "" then none else some suffix

/-- `Counter` update: add `n` to the count of `k`, appending a fresh entry
at the end on first sight (dict insertion order). -/
def counterAdd {α : Type} [DecidableEq α] (c : List (α × Nat)) (k : α) (n : Nat) :
    List (α × Nat) :=
  match c with
  | [] => [(k, n)]
  | (k0, n0) :: rest =>
    if k0 = k then (k0, n0 + n) :: rest else (k0, n0) :: counterAdd rest k n

/-- `Counter[k]`: the count of `k`, 0 when absent. -/
def counterGet {α : Type} [DecidableEq α] (c : List (α × Nat)) (k : α) : Nat :=
  match c with
  | [] => 0
  | (k0, n0) :: rest => if k0 = k then n0 else counterGet rest k

/-- One captured path counted into the `exts` counter. -/
def extStep (acc : List (String × Nat)) (p : String) : List (String × Nat) :=
  match extOfPath p with
  | none => acc
  | some ext => counterAdd acc ext 1

/-- One diff text counted into the `exts` counter
(`if not txt: continue`). -/
def extTextStep (acc : List (String × Nat)) (txt : String) :
    List (String × Nat) :=
  if txt = "" then acc else (diffPaths txt).foldl extStep acc

/-- The `exts` counter accumulated over the diff texts: one increment per
counted capture. -/
def extCounter (diffTexts : List String) : List (String × Nat) :=
  diffTexts.foldl extTextStep []

/-- One step of the `lang_counts` accumulation. -/
def langStep (acc : List (String × Nat)) (kv : String × Nat) :
    List (String × Nat) :=
  match extToLang kv.1 with
  | none => acc
  | some lang => counterAdd acc lang kv.2

/-- `lang_counts` from a given accumulator. -/
def langCounterAux (acc : List (String × Nat)) (c : List (String × Nat)) :
    List (String × Nat) :=
  c.foldl langStep acc

/-- `lang_counts`: extension counts mapped through `EXT_TO_LANG`. -/
def langCounter (c : List (String × Nat)) : List (String × Nat) :=
  langCounterAux [] c

/-- One comparison step of `Counter.most_common(1)`: keep the earlier
entry on ties (`sorted(..., reverse=True)` is stable). -/
def bestStep (best : Option (String × Nat)) (kv : String × Nat) :
    Option (String × Nat) :=
  match best with
  | none => some kv
  | some b => if kv.2 > b.2 then some kv else some b

/-- `Counter.most_common(1)[0][0]`: the earliest-inserted key of maximal
count. -/
def mostCommonKey (c : List (String × Nat)) : Option String :=
  (c.foldl bestStep none).map Prod.fst

/-- `infer_language_from_diff_text`: the inferred language and the raw
extension counts. -/
def infer_language_from_diff_text (diffTexts : List String) :
    String × List (String × Nat) :=
  let exts := extCounter diffTexts
  let langCounts := langCounter exts
  match mostCommonKey langCounts with
  | none => ("Python", exts)
  | some best => (best, exts)

/-- All counted extension occurrences across the diff texts, in order. -/
def allExts (diffTexts : List String) : List String :=
  (diffTexts.filter (fun t => t != "")).flatMap
    (fun txt => (diffPaths txt).filterMap extOfPath)

/-- Number of occurrences, across the diff texts, of extensions recognized
as `lang`. -/
def langOcc (diffTexts : List String) (lang : String) : Nat :=
  (allExts diffTexts).countP (fun e => extToLang e == some lang)

/-! ## `sbl_count_f2p_from_validated_instances.py` -/

/-- One parsed row of `validated_instances.jsonl` (`_parse_row`):
`instance_id` non-empty, the two test-name lists coerced to string
lists. -/
structure Row where
  instance_id : String
  fail_to_pass : List String
  pass_to_pass : List String
deriving DecidableEq, Repr

/-- `min(xs) if xs else 0`. -/
def pyMinOr0 : List Nat → Nat
  | [] => 0
  | x :: xs => xs.foldl Nat.min x

/-- `max(xs) if xs else 0`. -/
def pyMaxOr0 : List Nat → Nat
  | [] => 0
  | x :: xs => xs.foldl Nat.max x

/-- The `report` dict built by `main` (ratio as an exact rational). -/
structure F2pReport where
  total_instances : Nat
  f2p_instances : Nat
  f2p_ratio : ℚ
  f2p_size_histogram : List (Nat × Nat)
  top_f2p_instances : List (String × Nat)
  ptp_min : Nat
  ptp_max : Nat

/-- `main`'s report computation (lines 88–110): filter the F2P rows, count
and size them, histogram the F2P sizes (`Counter` + `sorted` by key), rank
instances by descending F2P count then ascending id (`key=lambda x:
(-x[1], x[0])`), and take the guarded ratio and PASS_TO_PASS extremes. -/
def f2pReport (rows : List Row) (topN : Int) : F2pReport :=
  let total := rows.length
  let f2pRows := rows.filter (fun r => r.fail_to_pass.length > 0)
  let f2pCount := f2pRows.length
  let f2pSizes := f2pRows.map (fun r => r.fail_to_pass.length)
  let ptpSizes := rows.map (fun r => r.pass_to_pass.length)
  let sizeCounter := f2pSizes.foldl (fun acc n => counterAdd acc n 1) []
  let top := (List.insertionSort
      (fun a b => b.2 < a.2 ∨ (a.2 = b.2 ∧ a.1 ≤ b.1))
      (f2pRows.map (fun r => (r.instance_id, r.fail_to_pass.length)))).take
    (max 0 topN).toNat
  { total_instances := total
    f2p_instances := f2pCount
    f2p_ratio := if total ≠ 0 then (f2pCount : ℚ) / (total : ℚ) else 0
    f2p_size_histogram := List.insertionSort (fun a b => a.1 ≤ b.1) sizeCounter
    top_f2p_instances := top
    ptp_min := pyMinOr0 ptpSizes
    ptp_max := pyMaxOr0 ptpSizes }

/-! ## `sbl_prepare_pull2issue_from_issue_pr_map.py` -/

/-- One validated entry of `issue_pr_map.json` (a dict with truthy `repo`
and present `issue_number`/`pr_number`; anything else aborts the run). -/
structure MapEntry where
  repo : String
  issue_number : Int
  pr_number : Int
deriving DecidableEq, Repr

/-- `m[pr].append(issue)` on an insertion-ordered association list (the
inner `defaultdict(list)`). -/
def appendAt (m : List (Int × List Int)) (pr issue : Int) :
    List (Int × List Int) :=
  match m with
  | [] => [(pr, [issue])]
  | (p0, is0) :: rest =>
    if p0 = pr then (p0, is0 ++ [issue]) :: rest
    else (p0, is0) :: appendAt rest pr issue

/-- One input entry folded into one repository's inner dict. -/
def prStep (repo : String) (m : List (Int × List Int)) (it : MapEntry) :
    List (Int × List Int) :=
  if it.repo == repo then appendAt m it.pr_number it.issue_number else m

/-- The inner `pr → issues` dict of one repository, as the loop
`repo_pr_issues[str(repo)][int(pr)].append(int(issue))` builds it. -/
def prMapOf (items : List MapEntry) (repo : String) : List (Int × List Int) :=
  items.foldl (prStep repo) []

/-- Dict lookup on the insertion-ordered association list (`pr_map[pr]`,
an existing key). -/
def dictGet (m : List (Int × List Int)) (pr : Int) : List Int :=
  match m with
  | [] => []
  | (p0, is0) :: rest => if p0 = pr then is0 else dictGet rest pr

/-- `sorted(pr_map.keys())`: dict keys are unique, so this is the
ascending enumeration of the key set. -/
def pySortedKeys (m : List (Int × List Int)) : List Int :=
  List.insertionSort (· ≤ ·) (m.map Prod.fst)

/-- `sorted(set(xs))`. -/
def pySortedSet (xs : List Int) : List Int :=
  List.insertionSort (· ≤ ·) xs.dedup

/-- The pull2issue file content for one repository: one
`{"pull": pr_num, "issue": issues}` line per PR, with
`for pr_num in sorted(pr_map.keys())` and `issues =
sorted(set(pr_map[pr_num]))`. -/
def pull2issueLines (items : List MapEntry) (repo : String) :
    List (Int × List Int) :=
  (pySortedKeys (prMapOf items repo)).map
    (fun pr => (pr, pySortedSet (dictGet (prMapOf items repo) pr)))

/-- Modelled from the spec (refinement target, not code of the
repository): "write both artifact files atomically (write-then-rename or
equivalent — never leave a half-written file visible under the final
name)"; over the event vocabulary this says content only ever reaches a
final artifact path through a `rename`, never through a direct
`writeFile`. -/
def specAtomicWriteProtocol (tr : List Ev) (finalPaths : List String) : Prop :=
  ∀ p ∈ finalPaths, ∀ text, Ev.writeFile p text ∉ tr

/-! # Theorems -/

/-- Helper: an `evSeq` chain succeeds only if its head succeeds. -/
theorem evSeq_ok {α β : Type} {x : Except PyErr α × List Ev}
    {f : α → Except PyErr β × List Ev} {b : β} (h : (evSeq x f).1 = .ok b) :
    ∃ a, x.1 = .ok a ∧ (f a).1 = .ok b := by
  obtain ⟨r, tr⟩ := x
  cases r with
  | error e => simp [evSeq] at h
  | ok a => exact ⟨a, rfl, by simpa [evSeq] using h⟩

/-- Helper: the last element of `x :: (l ++ [a])` is `a`. -/
theorem getLast?_cons_concat {α : Type} (x a : α) (l : List α) :
    (x :: (l ++ [a])).getLast? = some a := by
  rw [← List.cons_append, List.getLast?_concat]

/-- Helper: an event absent from both sides of an `evSeq` is absent from
the composite trace. -/
theorem evSeq_notin {α β : Type} {ev : Ev} (x : Except PyErr α × List Ev)
    (f : α → Except PyErr β × List Ev)
    (hx : ev ∉ x.2) (hf : ∀ a, ev ∉ (f a).2) : ev ∉ (evSeq x f).2 := by
  obtain ⟨r, tr⟩ := x
  cases r with
  | error e => simpa [evSeq] using hx
  | ok a =>
    intro hmem
    rcases List.mem_append.mp (by simpa [evSeq] using hmem) with h | h
    · exact hx (by simpa using h)
    · exact hf a h

/-- Helper: the `try` body of `run_variant` never calls `cleanup` itself;
the only `cleanup` call is the one in the `finally`. -/
theorem runVariantBody_no_cleanup (w : World)
    (testPatch patch rebuildCmd testCmd printCmd parserId : String)
    (applySolution : Bool) :
    Ev.cleanup ∉ (runVariantBody w testPatch patch rebuildCmd testCmd printCmd
      parserId applySolution).2 := by
  unfold runVariantBody
  apply evSeq_notin
  · split <;> simp
  intro _
  apply evSeq_notin
  · split <;> simp
  intro _
  apply evSeq_notin
  · split <;> simp
  intro _
  apply evSeq_notin
  · simp
  intro _
  apply evSeq_notin
  · simp
  intro raw
  apply evSeq_notin
  · simp
  intro statusMap
  simp

/-- Helper: when every non-blank line parses, `loadJsonlAux` returns the
parses of the non-blank lines in order, for any starting line number. -/
theorem loadJsonlAux_all_ok {J : Type} (parse : String → Except String J) (path : String)
    (lines : List String)
    (h : ∀ l ∈ lines, pyStrip l ≠ "" → (parse (pyStrip l)).isOk = true) (n : Nat) :
    loadJsonlAux parse path n lines =
      .ok ((lines.filter (fun l => pyStrip l != "")).filterMap
            (fun l => (parse (pyStrip l)).toOption)) := by
  induction lines generalizing n with
  | nil => simp [loadJsonlAux]
  | cons a rest ih =>
    have hrest : ∀ l ∈ rest, pyStrip l ≠ "" → (parse (pyStrip l)).isOk = true :=
      fun l hl => h l (List.mem_cons_of_mem _ hl)
    by_cases ha : pyStrip a = ""
    · simp [loadJsonlAux, ha, ih hrest (n + 1)]
    · have hok := h a (List.mem_cons_self _ _) ha
      cases hpa : parse (pyStrip a) with
      | error e => rw [hpa] at hok; simp [Except.isOk, Except.toBool] at hok
      | ok v =>
        simp [loadJsonlAux, ha, hpa, ih hrest (n + 1), Except.toOption]

/-- Helper: if line `i` (0-based) is the first non-blank line that fails to
parse, `loadJsonlAux` started at line number `n` fails with the message for
line `n + i`. -/
theorem loadJsonlAux_first_bad {J : Type} (parse : String → Except String J) (path : String)
    (lines : List String) :
    ∀ (n i : Nat) (hi : i < lines.length) (msg : String),
      (∀ j (hj : j < lines.length), j < i →
        pyStrip (lines.get ⟨j, hj⟩) = "" ∨
          (parse (pyStrip (lines.get ⟨j, hj⟩))).isOk = true) →
      pyStrip (lines.get ⟨i, hi⟩) ≠ "" →
      parse (pyStrip (lines.get ⟨i, hi⟩)) = .error msg →
      loadJsonlAux parse path n lines = .error (invalidJsonMsg (n + i) path msg) := by
  induction lines with
  | nil =>
    intro n i hi
    exact absurd hi (by simp)
  | cons a rest ih =>
    intro n i hi msg hbefore hne hbad
    cases i with
    | zero =>
      simp only [List.get] at hne hbad
      simp [loadJsonlAux, hne, hbad]
    | succ i' =>
      have hi' : i' < rest.length := Nat.lt_of_succ_lt_succ hi
      have ha := hbefore 0 (Nat.succ_pos _) (Nat.succ_pos _)
      simp only [List.get] at ha hne hbad
      have hrec := ih (n + 1) i' hi' msg
        (fun j hj hlt => hbefore (j + 1) (Nat.succ_lt_succ hj) (Nat.succ_lt_succ hlt))
        hne hbad
      have harith : n + 1 + i' = n + (i' + 1) := by omega
      by_cases hblank : pyStrip a = ""
      · simp only [loadJsonlAux, hblank, if_pos rfl]
        rw [hrec, harith]
        simp
      · rcases ha with ha | ha
        · exact absurd ha hblank
        · cases hpa : parse (pyStrip a) with
          | error e => rw [hpa] at ha; simp [Except.isOk, Except.toBool] at ha
          | ok v =>
            simp only [loadJsonlAux, if_neg hblank, hpa]
            rw [hrec, harith]

/-- C7: for every input file, `_load_jsonl` returns the records of all
non-blank lines in file order (ignoring blank lines), and fails the entire
load — no partial result — on the first non-blank line that does not parse
as JSON, with a `SystemExit` message naming the file and the 1-based line
number. -/
theorem loadJsonl_spec {J : Type} (parse : String → Except String J) (path : String)
    (lines : List String) :
    ((∀ l ∈ lines, pyStrip l ≠ "" → (parse (pyStrip l)).isOk = true) →
      loadJsonl parse path lines =
        .ok ((lines.filter (fun l => pyStrip l != "")).filterMap
              (fun l => (parse (pyStrip l)).toOption)))
    ∧ (∀ i (hi : i < lines.length) msg,
        (∀ j (hj : j < lines.length), j < i →
          pyStrip (lines.get ⟨j, hj⟩) = "" ∨
            (parse (pyStrip (lines.get ⟨j, hj⟩))).isOk = true) →
        pyStrip (lines.get ⟨i, hi⟩) ≠ "" →
        parse (pyStrip (lines.get ⟨i, hi⟩)) = .error msg →
        loadJsonl parse path lines = .error (invalidJsonMsg (i + 1) path msg)) := by
  constructor
  · intro h
    exact loadJsonlAux_all_ok parse path lines h 1
  · intro i hi msg hbefore hne hbad
    have := loadJsonlAux_first_bad parse path lines 1 i hi msg hbefore hne hbad
    rwa [Nat.add_comm 1 i] at this

/-- C7 witness: on the concrete file `in.jsonl` with four lines — a
well-formed record, a blank line, the malformed line `x`, another
well-formed record — the load fails on line 3 with the expected
message. -/
theorem loadJsonl_spec_witness :
    loadJsonl (fun s => if s = "x" then .error "Expecting value" else .ok s)
        "in.jsonl" ["rec1", "  ", "x", "rec2"] =
      .error "Invalid JSON on line 3 of in.jsonl: Expecting value" :=
  (loadJsonl_spec (fun s => if s = "x" then .error "Expecting value" else .ok s)
      "in.jsonl" ["rec1", "  ", "x", "rec2"]).2 2 (by decide) "Expecting value"
    (by decide) (by decide) rfl

/-- C2: in every world, `run_variant` performs the `cleanup` call exactly
once per successful acquire — on every exit path, as the final external
action — and returns/raises exactly the body's outcome, so any error
raised between acquire and return propagates to the caller after cleanup
completes; when the acquire itself fails, no cleanup happens. -/
theorem runVariant_release_once (w : World) (image instanceId platform : String)
    (timeoutS : Nat) (testPatch patch rebuildCmd testCmd printCmd parserId : String)
    (applySolution : Bool) :
    ((w.fromLaunchImage image instanceId).isOk = true →
      (runVariant w image instanceId platform timeoutS testPatch patch rebuildCmd
          testCmd printCmd parserId applySolution).2.count Ev.cleanup = 1 ∧
      (runVariant w image instanceId platform timeoutS testPatch patch rebuildCmd
          testCmd printCmd parserId applySolution).2.getLast? = some Ev.cleanup ∧
      (runVariant w image instanceId platform timeoutS testPatch patch rebuildCmd
          testCmd printCmd parserId applySolution).1 =
        (runVariantBody w testPatch patch rebuildCmd testCmd printCmd parserId
          applySolution).1)
    ∧ ((w.fromLaunchImage image instanceId).isOk = false →
      (runVariant w image instanceId platform timeoutS testPatch patch rebuildCmd
          testCmd printCmd parserId applySolution).2.count Ev.cleanup = 0) := by
  cases hacq : w.fromLaunchImage image instanceId with
  | error e =>
    refine ⟨fun h => ?_, fun _ => ?_⟩
    · simp [Except.isOk, Except.toBool] at h
    · simp [runVariant, hacq]
  | ok u =>
    refine ⟨fun _ => ?_, fun h => ?_⟩
    · have hno := runVariantBody_no_cleanup w testPatch patch rebuildCmd testCmd
        printCmd parserId applySolution
      refine ⟨?_, ?_, ?_⟩
      · simp [runVariant, hacq, List.count_cons, List.count_append,
          List.count_eq_zero.mpr hno]
      · simp only [runVariant, hacq]
        exact getLast?_cons_concat _ _ _
      · simp [runVariant, hacq]
    · simp [Except.isOk, Except.toBool] at h

/-- C2 witness: in the all-success world, the concrete prev-variant run
performs exactly one cleanup call. -/
theorem runVariant_release_once_witness :
    (runVariant okWorld "repolaunch/dev:x" "repo__x-1" "linux" 5400
        "tp" "sp" "make build" "make test" "cat /tmp/test.log" "pytest"
        false).2.count Ev.cleanup = 1 :=
  ((runVariant_release_once okWorld "repolaunch/dev:x" "repo__x-1" "linux" 5400
      "tp" "sp" "make build" "make test" "cat /tmp/test.log" "pytest" false).1 rfl).1

/-- Helper: the serialized variant output, rendered with the marker line
as a literal. -/
theorem serializeVariantOutput_eq (raw : String) (statusMap : List (String × String)) :
    serializeVariantOutput raw statusMap =
      pyRstrip raw ++ "\n" ++
        (if hasFailStatus statusMap
         then "echo OMNIGRIL_EXIT_CODE=1\n" else "echo OMNIGRIL_EXIT_CODE=0\n") := by
  cases hf : hasFailStatus statusMap with
  | false =>
    simp only [serializeVariantOutput, hf, if_false, Bool.false_eq_true]
    rw [String.append_assoc, String.append_assoc]
    congr 1
  | true =>
    simp only [serializeVariantOutput, hf, if_true]
    rw [String.append_assoc, String.append_assoc]
    congr 1

/-- Helper: the `has_fail` test as an existential over the status map. -/
theorem hasFailStatus_iff (statusMap : List (String × String)) :
    hasFailStatus statusMap = true ↔ ∃ kv ∈ statusMap, pyLower kv.2 = "fail" := by
  simp [hasFailStatus]

/-- C1: whenever a variant run completes classification (returns normally
with serialized output `s`), `s` is the raw log of the print command with
trailing whitespace trimmed, a newline, then the literal marker line
`echo OMNIGRIL_EXIT_CODE=1` if some value of the status mapping equals
"fail" case-insensitively and `echo OMNIGRIL_EXIT_CODE=0` otherwise; an
empty status mapping yields the exit-code-0 marker. -/
theorem runVariant_serialized_form (w : World) (image instanceId platform : String)
    (timeoutS : Nat) (testPatch patch rebuildCmd testCmd printCmd parserId : String)
    (applySolution : Bool) (s : String)
    (h : (runVariant w image instanceId platform timeoutS testPatch patch rebuildCmd
        testCmd printCmd parserId applySolution).1 = .ok s) :
    ∃ raw statusMap, w.sendCommandRes printCmd = .ok raw ∧
      w.runParserRes parserId raw = .ok statusMap ∧
      s = pyRstrip raw ++ "\n" ++
        (if ∃ kv ∈ statusMap, pyLower kv.2 = "fail"
         then "echo OMNIGRIL_EXIT_CODE=1\n" else "echo OMNIGRIL_EXIT_CODE=0\n") ∧
      (statusMap = [] → s = pyRstrip raw ++ "\n" ++ "echo OMNIGRIL_EXIT_CODE=0\n") := by
  have hbody : (runVariantBody w testPatch patch rebuildCmd testCmd printCmd parserId
      applySolution).1 = .ok s := by
    cases hacq : w.fromLaunchImage image instanceId with
    | error e => rw [runVariant, hacq] at h; simp at h
    | ok u => rw [runVariant, hacq] at h; simpa using h
  unfold runVariantBody at hbody
  obtain ⟨-, -, h1⟩ := evSeq_ok hbody
  obtain ⟨-, -, h2⟩ := evSeq_ok h1
  obtain ⟨-, -, h3⟩ := evSeq_ok h2
  obtain ⟨-, -, h4⟩ := evSeq_ok h3
  obtain ⟨raw, hraw, h5⟩ := evSeq_ok h4
  obtain ⟨statusMap, hsm, h6⟩ := evSeq_ok h5
  have hs : s = serializeVariantOutput raw statusMap := by
    simpa using h6.symm
  refine ⟨raw, statusMap, hraw, hsm, ?_, ?_⟩
  · rw [hs, serializeVariantOutput_eq]
    congr 1
    by_cases hfail : ∃ kv ∈ statusMap, pyLower kv.2 = "fail"
    · rw [if_pos hfail, if_pos ((hasFailStatus_iff _).mpr hfail)]
    · rw [if_neg hfail, if_neg (fun hb => hfail ((hasFailStatus_iff _).mp hb))]
  · intro hempty
    rw [hs, hempty, serializeVariantOutput_eq]
    simp [hasFailStatus]

/-- C1 witness: in the all-success world (the classifier reports a "Fail"
status, upper-case F), the serialized prev-variant output carries the
exit-code-1 marker appended to the trimmed raw log. -/
theorem runVariant_serialized_form_witness :
    ∃ raw statusMap, okWorld.sendCommandRes "cat /tmp/test.log" = .ok raw ∧
      okWorld.runParserRes "pytest" raw = .ok statusMap ∧
      ("ran cat /tmp/test.log" ++ "\n" ++ "echo OMNIGRIL_EXIT_CODE=1\n" =
        pyRstrip raw ++ "\n" ++
          (if ∃ kv ∈ statusMap, pyLower kv.2 = "fail"
           then "echo OMNIGRIL_EXIT_CODE=1\n" else "echo OMNIGRIL_EXIT_CODE=0\n")) ∧
      (statusMap = [] →
        "ran cat /tmp/test.log" ++ "\n" ++ "echo OMNIGRIL_EXIT_CODE=1\n" =
          pyRstrip raw ++ "\n" ++ "echo OMNIGRIL_EXIT_CODE=0\n") := by
  have h := runVariant_serialized_form okWorld "repolaunch/dev:x" "repo__x-1" "linux"
    5400 "tp" "sp" "make build" "make test" "cat /tmp/test.log" "pytest" false
    ("ran cat /tmp/test.log" ++ "\n" ++ "echo OMNIGRIL_EXIT_CODE=1\n") rfl
  exact h

/-- C3: with a non-empty `instance_id`, `overwrite` false and both
artifact files already present, `_run_one` returns the `skip` disposition
with an empty event trace — no field validation effects, no environment
acquisition, no artifact write — for every world and every record,
whatever its other fields. -/
theorem runOne_skip (w : World) (inst : Instance) (platform outDir : String)
    (timeoutS : Nat)
    (hid : getOrEmpty inst.instanceId ≠ "")
    (hprev : w.pathExists (outDir ++ "/" ++ getOrEmpty inst.instanceId ++ "/" ++
      PREV_FILE_NAME) = true)
    (hafter : w.pathExists (outDir ++ "/" ++ getOrEmpty inst.instanceId ++ "/" ++
      AFTER_FILE_NAME) = true) :
    runOne w inst platform outDir timeoutS false = (.ok ("skip", none), []) := by
  simp only [runOne]
  rw [if_neg hid, if_pos ⟨by simp, hprev, hafter⟩]

/-- C3 witness: a record whose only field is `instance_id` is skipped with
no events when both artifacts exist and overwrite is off. -/
theorem runOne_skip_witness :
    runOne allExistsWorld idOnlyInstance "linux" "out" 5400 false =
      (.ok ("skip", none), []) :=
  runOne_skip allExistsWorld idOnlyInstance "linux" "out" 5400 (by decide) rfl rfl

/-- C4 counterexample: a record with a non-empty `instance_id` but no
image at all (both `docker_image` and `image` absent) does not yield the
`error` disposition when `overwrite` is false and both artifact files
already exist — the skip shortcut fires first and `_run_one` returns
`skip`. -/
theorem runOne_validation_counterexample :
    idOnlyInstance.dockerImage = none ∧ idOnlyInstance.image = none ∧
    (runOne allExistsWorld idOnlyInstance "linux" "out" 5400 false).1 =
      .ok ("skip", none) ∧
    ("skip" : String) ≠ "error" :=
  ⟨rfl, rfl, rfl, by decide⟩

/-- C4 amended: a record missing/empty `instance_id` is rejected
unconditionally; and whenever the skip shortcut does not fire (`overwrite`
true, or at least one artifact file absent), a record missing or with an
empty image, test commands, print commands or parser id is rejected with
the `error` disposition and a message naming the missing field — always
with an empty event trace, so no environment session is ever acquired for
it. -/
theorem runOne_validation (w : World) (inst : Instance) (platform outDir : String)
    (timeoutS : Nat) (overwrite : Bool) :
    (getOrEmpty inst.instanceId = "" →
      runOne w inst platform outDir timeoutS overwrite =
        (.ok ("error", some "missing instance_id"), []))
    ∧ (getOrEmpty inst.instanceId ≠ "" →
       (overwrite = true ∨
        w.pathExists (outDir ++ "/" ++ getOrEmpty inst.instanceId ++ "/" ++
          PREV_FILE_NAME) = false ∨
        w.pathExists (outDir ++ "/" ++ getOrEmpty inst.instanceId ++ "/" ++
          AFTER_FILE_NAME) = false) →
       ((truthyStr (pyOr inst.dockerImage inst.image) = false →
          runOne w inst platform outDir timeoutS overwrite =
            (.ok ("error", some "missing docker_image"), []))
        ∧ (truthyStr (pyOr inst.dockerImage inst.image) = true →
           joinCmds inst.testCmds = "" →
           runOne w inst platform outDir timeoutS overwrite =
             (.ok ("error", some "missing test_cmds"), []))
        ∧ (truthyStr (pyOr inst.dockerImage inst.image) = true →
           joinCmds inst.testCmds ≠ "" →
           joinCmds inst.printCmds = "" →
           runOne w inst platform outDir timeoutS overwrite =
             (.ok ("error", some "missing print_cmds (needed to judge pass/fail)"), []))
        ∧ (truthyStr (pyOr inst.dockerImage inst.image) = true →
           joinCmds inst.testCmds ≠ "" →
           joinCmds inst.printCmds ≠ "" →
           pyStrip (parserOf inst) = "" →
           runOne w inst platform outDir timeoutS overwrite =
             (.ok ("error",
               some "missing log_parser/parser (needed to judge pass/fail)"), [])))) := by
  constructor
  · intro h
    simp only [runOne]
    rw [if_pos h]
  · intro hid hskip
    have hskipneg : ¬(¬(overwrite = true) ∧
        w.pathExists (outDir ++ "/" ++ getOrEmpty inst.instanceId ++ "/" ++
          PREV_FILE_NAME) = true ∧
        w.pathExists (outDir ++ "/" ++ getOrEmpty inst.instanceId ++ "/" ++
          AFTER_FILE_NAME) = true) := by
      rcases hskip with h | h | h <;> simp [h]
    refine ⟨fun himg => ?_, fun himg htest => ?_, fun himg htest hprint => ?_,
      fun himg htest hprint hpid => ?_⟩ <;>
      simp only [runOne] <;>
      rw [if_neg hid, if_neg hskipneg] <;>
      simp [himg]
    · simp [htest]
    · simp [htest, hprint]
    · simp [htest, hprint, hpid]

/-- C4 witness: a record with an image but no `test_cmds` is rejected as
"missing test_cmds" with no events, in a world where no artifact exists
yet. -/
theorem runOne_validation_witness :
    runOne okWorld noTestCmdsInstance "linux" "out" 5400 false =
      (.ok ("error", some "missing test_cmds"), []) :=
  ((runOne_validation okWorld noTestCmdsInstance "linux" "out" 5400 false).2
    (by decide) (Or.inr (Or.inl rfl))).2.1 rfl rfl

/-- C5 (code bug): when a variant run raises and the diagnostic write
itself fails, the secondary failure is NOT swallowed — `_run_one`'s
`except` block performs `mkdir`/`_write_text` unguarded, so the `OSError`
from writing `error.txt` escapes `_run_one` (and `fut.result()` would
re-raise it in `main`), even though the diagnostic write was attempted. -/
theorem runOne_diag_write_escalates :
    (runOne diagFailWorld fullInstance "linux" "out" 5400 false).1 =
      .error ⟨"OSError", "No space left on device"⟩ ∧
    Ev.writeFile "out/repo__x-1/error.txt" "CommandTimeout: timed out\n" ∈
      (runOne diagFailWorld fullInstance "linux" "out" 5400 false).2 :=
  ⟨rfl, by decide⟩

/-- C6 counterexample: on a fully successful evaluation the artifact
content reaches the final artifact path by a direct `writeFile` — there is
no write-then-rename, so the spec's atomic-write protocol is violated. -/
theorem runOne_atomic_counterexample :
    (runOne okWorld fullInstance "linux" "out" 5400 false).1 = .ok ("ok", none) ∧
    Ev.writeFile ("out/repo__x-1/" ++ PREV_FILE_NAME)
        "ran cat /tmp/test.log\necho OMNIGRIL_EXIT_CODE=1\n" ∈
      (runOne okWorld fullInstance "linux" "out" 5400 false).2 ∧
    ¬ specAtomicWriteProtocol (runOne okWorld fullInstance "linux" "out" 5400 false).2
        ["out/repo__x-1/" ++ PREV_FILE_NAME, "out/repo__x-1/" ++ AFTER_FILE_NAME] := by
  refine ⟨rfl, by decide, fun h => ?_⟩
  exact h ("out/repo__x-1/" ++ PREV_FILE_NAME) (by simp)
    "ran cat /tmp/test.log\necho OMNIGRIL_EXIT_CODE=1\n" (by decide)

/-- Helper: a successful `evSeq` decomposes into a successful head, a
successful continuation, and the concatenation of their traces. -/
theorem evSeq_ok_trace {α β : Type} {x : Except PyErr α × List Ev}
    {f : α → Except PyErr β × List Ev} {b : β} (h : (evSeq x f).1 = .ok b) :
    ∃ a, x.1 = .ok a ∧ (f a).1 = .ok b ∧ (evSeq x f).2 = x.2 ++ (f a).2 := by
  obtain ⟨r, tr⟩ := x
  cases r with
  | error e => simp [evSeq] at h
  | ok a => exact ⟨a, rfl, by simpa [evSeq] using h, by simp [evSeq]⟩

/-- Helper: a successful `_write_text` call performs exactly a parent
mkdir followed by a direct write to the final path. -/
theorem writeText_ok {w : World} {p t : String} {u : Unit}
    (h : (writeText w p t).1 = .ok u) :
    (writeText w p t).2 = [Ev.mkdirParents (parentDir p), Ev.writeFile p t] := by
  unfold writeText at h ⊢
  cases hm : w.mkdirRes (parentDir p) with
  | error e => rw [hm] at h; simp at h
  | ok v => rfl

/-- Helper: the `try` body of `run_variant` performs no rename. -/
theorem runVariantBody_no_rename (w : World)
    (testPatch patch rebuildCmd testCmd printCmd parserId : String)
    (applySolution : Bool) (src dst : String) :
    Ev.rename src dst ∉ (runVariantBody w testPatch patch rebuildCmd testCmd
      printCmd parserId applySolution).2 := by
  unfold runVariantBody
  apply evSeq_notin
  · split <;> simp
  intro _
  apply evSeq_notin
  · split <;> simp
  intro _
  apply evSeq_notin
  · split <;> simp
  intro _
  apply evSeq_notin
  · simp
  intro _
  apply evSeq_notin
  · simp
  intro raw
  apply evSeq_notin
  · simp
  intro statusMap
  simp

/-- Helper: `run_variant` performs no rename. -/
theorem runVariant_no_rename (w : World) (image instanceId platform : String)
    (timeoutS : Nat) (testPatch patch rebuildCmd testCmd printCmd parserId : String)
    (applySolution : Bool) (src dst : String) :
    Ev.rename src dst ∉ (runVariant w image instanceId platform timeoutS testPatch
      patch rebuildCmd testCmd printCmd parserId applySolution).2 := by
  unfold runVariant
  cases hacq : w.fromLaunchImage image instanceId with
  | error e => simp
  | ok u =>
    intro hmem
    simp only [List.mem_cons, List.mem_append, List.mem_singleton] at hmem
    rcases hmem with (h | h) | h | h
    · exact Ev.noConfusion h
    · exact runVariantBody_no_rename w testPatch patch rebuildCmd testCmd printCmd
        parserId applySolution src dst h
    · exact Ev.noConfusion h
    · simp at h

/-- Helper: the `except` block of `_run_one` never produces the `ok`
disposition. -/
theorem runOneRescue_ne_ok (w : World) (instOut : String) (e : PyErr)
    (tr : List Ev) (msg : Option String) :
    (runOneRescue w instOut e tr).1 ≠ .ok ("ok", msg) := by
  unfold runOneRescue
  cases w.mkdirRes instOut with
  | error e2 => simp
  | ok v =>
    rcases writeText w (instOut ++ "/error.txt") (e.render ++ "\n") with ⟨r2, tr2⟩
    cases r2 <;> simp

/-- Helper: `_write_text` never renames, whatever its outcome. -/
theorem writeText_no_rename (w : World) (p t : String) (src dst : String) :
    Ev.rename src dst ∉ (writeText w p t).2 := by
  unfold writeText
  cases w.mkdirRes (parentDir p) <;> simp

/-- Helper: a successful `_run_one` try block wrote both artifacts by
direct `writeFile` calls to their final paths and performed no rename. -/
theorem runOneTry_writes {w : World} {image instanceId platform : String}
    {timeoutS : Nat} {testPatch patch rebuildCmd testCmd printCmd parserId
      prevPath afterPath : String} {u : Unit}
    (h : (runOneTry w image instanceId platform timeoutS testPatch patch rebuildCmd
      testCmd printCmd parserId prevPath afterPath).1 = .ok u) :
    ∃ prevOut afterOut,
      Ev.writeFile prevPath prevOut ∈ (runOneTry w image instanceId platform
        timeoutS testPatch patch rebuildCmd testCmd printCmd parserId prevPath
        afterPath).2 ∧
      Ev.writeFile afterPath afterOut ∈ (runOneTry w image instanceId platform
        timeoutS testPatch patch rebuildCmd testCmd printCmd parserId prevPath
        afterPath).2 ∧
      ∀ src dst, Ev.rename src dst ∉ (runOneTry w image instanceId platform
        timeoutS testPatch patch rebuildCmd testCmd printCmd parserId prevPath
        afterPath).2 := by
  unfold runOneTry at h ⊢
  obtain ⟨prevOut, hV1, hrest1, htr1⟩ := evSeq_ok_trace h
  obtain ⟨afterOut, hV2, hrest2, htr2⟩ := evSeq_ok_trace hrest1
  obtain ⟨u1, hW1, hW2, htr3⟩ := evSeq_ok_trace hrest2
  have hw1tr := writeText_ok hW1
  have hw2tr := writeText_ok hW2
  refine ⟨prevOut, afterOut, ?_, ?_, ?_⟩
  · rw [htr1]
    simp only [htr2, htr3, hw1tr, List.mem_append]
    simp
  · rw [htr1]
    simp only [htr2, htr3, hw2tr, List.mem_append]
    simp
  · intro src dst hmem
    rw [htr1] at hmem
    simp only [htr2, htr3, hw1tr, hw2tr, List.mem_append] at hmem
    rcases hmem with hmem | hmem | hmem | hmem
    · exact runVariant_no_rename w image instanceId platform timeoutS testPatch
        patch rebuildCmd testCmd printCmd parserId false src dst hmem
    · exact runVariant_no_rename w image instanceId platform timeoutS testPatch
        patch rebuildCmd testCmd printCmd parserId true src dst hmem
    · simp at hmem
    · simp at hmem

/-- C6 amended: whenever `_run_one` returns the `ok` disposition (both
variant runs and both writes succeeded), both artifact files were written
by direct in-place `writeFile` calls to their final names — create the
parent directory, then write — and no rename was ever performed, i.e. the
writes are plain, not write-then-rename. -/
theorem runOne_ok_direct_writes (w : World) (inst : Instance)
    (platform outDir : String) (timeoutS : Nat) (overwrite : Bool)
    (h : (runOne w inst platform outDir timeoutS overwrite).1 = .ok ("ok", none)) :
    ∃ prevText afterText,
      Ev.writeFile (outDir ++ "/" ++ getOrEmpty inst.instanceId ++ "/" ++
          PREV_FILE_NAME) prevText ∈
        (runOne w inst platform outDir timeoutS overwrite).2 ∧
      Ev.writeFile (outDir ++ "/" ++ getOrEmpty inst.instanceId ++ "/" ++
          AFTER_FILE_NAME) afterText ∈
        (runOne w inst platform outDir timeoutS overwrite).2 ∧
      ∀ src dst, Ev.rename src dst ∉
        (runOne w inst platform outDir timeoutS overwrite).2 := by
  by_cases hid : getOrEmpty inst.instanceId = ""
  · exfalso
    simp only [runOne] at h
    rw [if_pos hid] at h
    simp at h
  by_cases hskip : ¬(overwrite = true) ∧
      w.pathExists (outDir ++ "/" ++ getOrEmpty inst.instanceId ++ "/" ++
        PREV_FILE_NAME) = true ∧
      w.pathExists (outDir ++ "/" ++ getOrEmpty inst.instanceId ++ "/" ++
        AFTER_FILE_NAME) = true
  · exfalso
    simp only [runOne] at h
    rw [if_neg hid, if_pos hskip] at h
    simp at h
  by_cases himg : truthyStr (pyOr inst.dockerImage inst.image) = true
  case neg =>
    exfalso
    simp only [runOne] at h
    rw [if_neg hid, if_neg hskip, if_pos himg] at h
    simp at h
  by_cases htest : joinCmds inst.testCmds = ""
  · exfalso
    simp only [runOne] at h
    rw [if_neg hid, if_neg hskip, if_neg (fun hc => hc himg), if_pos htest] at h
    simp at h
  by_cases hprint : joinCmds inst.printCmds = ""
  · exfalso
    simp only [runOne] at h
    rw [if_neg hid, if_neg hskip, if_neg (fun hc => hc himg), if_neg htest,
      if_pos hprint] at h
    simp at h
  by_cases hpid : pyStrip (parserOf inst) = ""
  · exfalso
    simp only [runOne] at h
    rw [if_neg hid, if_neg hskip, if_neg (fun hc => hc himg), if_neg htest,
      if_neg hprint, if_pos hpid] at h
    simp at h
  simp only [runOne] at h ⊢
  rw [if_neg hid, if_neg hskip, if_neg (fun hc => hc himg), if_neg htest,
    if_neg hprint, if_neg hpid] at h ⊢
  rcases hE : runOneTry w (getOrEmpty (pyOr inst.dockerImage inst.image))
      (getOrEmpty inst.instanceId) platform timeoutS (getOrEmpty inst.testPatch)
      (getOrEmpty inst.patch) (joinCmds inst.rebuildCmds) (joinCmds inst.testCmds)
      (joinCmds inst.printCmds) (parserOf inst)
      (outDir ++ "/" ++ getOrEmpty inst.instanceId ++ "/" ++ PREV_FILE_NAME)
      (outDir ++ "/" ++ getOrEmpty inst.instanceId ++ "/" ++ AFTER_FILE_NAME)
    with ⟨r, tr⟩
  rw [hE] at h
  cases r with
  | error e =>
    exact absurd h (runOneRescue_ne_ok w
      (outDir ++ "/" ++ getOrEmpty inst.instanceId) e tr none)
  | ok u =>
    have hTry : (runOneTry w (getOrEmpty (pyOr inst.dockerImage inst.image))
        (getOrEmpty inst.instanceId) platform timeoutS (getOrEmpty inst.testPatch)
        (getOrEmpty inst.patch) (joinCmds inst.rebuildCmds) (joinCmds inst.testCmds)
        (joinCmds inst.printCmds) (parserOf inst)
        (outDir ++ "/" ++ getOrEmpty inst.instanceId ++ "/" ++ PREV_FILE_NAME)
        (outDir ++ "/" ++ getOrEmpty inst.instanceId ++ "/" ++
          AFTER_FILE_NAME)).1 = .ok u := by rw [hE]
    obtain ⟨prevOut, afterOut, hmem1, hmem2, hnoren⟩ := runOneTry_writes hTry
    rw [hE] at hmem1 hmem2 hnoren
    exact ⟨prevOut, afterOut, hmem1, hmem2, hnoren⟩

/-- C6 amended witness: the concrete all-success evaluation returns `ok`,
wrote both artifacts under their final names, and performed no rename. -/
theorem runOne_ok_direct_writes_witness :
    ∃ prevText afterText,
      Ev.writeFile ("out" ++ "/" ++ getOrEmpty fullInstance.instanceId ++ "/" ++
          PREV_FILE_NAME) prevText ∈
        (runOne okWorld fullInstance "linux" "out" 5400 false).2 ∧
      Ev.writeFile ("out" ++ "/" ++ getOrEmpty fullInstance.instanceId ++ "/" ++
          AFTER_FILE_NAME) afterText ∈
        (runOne okWorld fullInstance "linux" "out" 5400 false).2 ∧
      ∀ src dst, Ev.rename src dst ∉
        (runOne okWorld fullInstance "linux" "out" 5400 false).2 :=
  runOne_ok_direct_writes okWorld fullInstance "linux" "out" 5400 false rfl

/-- Helper: `counterAdd` adds `n` to exactly the count of `k`. -/
theorem counterGet_counterAdd (c : List (String × Nat)) (k : String) (n : Nat)
    (k' : String) :
    counterGet (counterAdd c k n) k' =
      counterGet c k' + (if k = k' then n else 0) := by
  induction c with
  | nil =>
    by_cases h : k = k' <;> simp [counterAdd, counterGet, h]
  | cons kv rest ih =>
    obtain ⟨k0, n0⟩ := kv
    by_cases h0 : k0 = k
    · subst h0
      by_cases h1 : k0 = k' <;> simp [counterAdd, counterGet, h1]
    · by_cases h1 : k0 = k'
      · subst h1
        have hne : ¬ k = k0 := fun he => h0 he.symm
        simp [counterAdd, counterGet, h0, hne]
      · simp [counterAdd, counterGet, h0, h1, ih]

/-- Helper: a key absent from a counter has count 0. -/
theorem counterGet_of_not_mem {c : List (String × Nat)} {k : String}
    (h : k ∉ c.map Prod.fst) : counterGet c k = 0 := by
  induction c with
  | nil => rfl
  | cons kv rest ih =>
    obtain ⟨k0, n0⟩ := kv
    simp only [List.map_cons, List.mem_cons] at h
    push_neg at h
    have hne : k0 ≠ k := fun he => h.1 he.symm
    simp only [counterGet, if_neg hne]
    exact ih h.2

/-- Helper: the keys of `counterAdd c k n` are the keys of `c` plus `k`. -/
theorem mem_keys_counterAdd {c : List (String × Nat)} {k x : String} {n : Nat} :
    x ∈ (counterAdd c k n).map Prod.fst ↔ x ∈ c.map Prod.fst ∨ x = k := by
  induction c with
  | nil => simp [counterAdd]
  | cons kv rest ih =>
    obtain ⟨k0, n0⟩ := kv
    by_cases h0 : k0 = k
    · subst h0
      simp [counterAdd]
      tauto
    · simp [counterAdd, h0, ih]
      tauto

/-- Helper: `counterAdd` preserves key uniqueness. -/
theorem nodup_keys_counterAdd {c : List (String × Nat)} {k : String} {n : Nat}
    (h : (c.map Prod.fst).Nodup) : ((counterAdd c k n).map Prod.fst).Nodup := by
  induction c with
  | nil => simp [counterAdd]
  | cons kv rest ih =>
    obtain ⟨k0, n0⟩ := kv
    simp only [List.map_cons, List.nodup_cons] at h
    by_cases h0 : k0 = k
    · subst h0
      have he : counterAdd ((k0, n0) :: rest) k0 n = (k0, n0 + n) :: rest := by
        simp [counterAdd]
      rw [he]
      simp only [List.map_cons, List.nodup_cons]
      exact ⟨h.1, h.2⟩
    · have hrest := ih h.2
      simp only [counterAdd, if_neg h0, List.map_cons, List.nodup_cons]
      refine ⟨?_, hrest⟩
      intro hmem
      rcases mem_keys_counterAdd.mp hmem with hm | he
      · exact h.1 hm
      · exact h0 he

/-- Helper: under unique keys, the count of a present entry is its
value. -/
theorem counterGet_of_mem {c : List (String × Nat)} {l : String} {n : Nat}
    (hnd : (c.map Prod.fst).Nodup) (hm : (l, n) ∈ c) : counterGet c l = n := by
  induction c with
  | nil => cases hm
  | cons kv rest ih =>
    obtain ⟨k0, n0⟩ := kv
    simp only [List.map_cons, List.nodup_cons] at hnd
    rcases List.mem_cons.mp hm with he | hm'
    · obtain ⟨h1, h2⟩ := Prod.mk.injEq .. ▸ he
      subst h1
      subst h2
      simp [counterGet]
    · have hne : k0 ≠ l := by
        intro he0
        subst he0
        exact hnd.1 (List.mem_map.mpr ⟨(k0, n), hm', rfl⟩)
      simp only [counterGet, if_neg hne]
      exact ih hnd.2 hm'

/-- Helper: every count in a counter whose entry values are bounded is
bounded. -/
theorem counterGet_le_of_forall {c : List (String × Nat)} {m : Nat}
    (h : ∀ kv ∈ c, kv.2 ≤ m) (k : String) : counterGet c k ≤ m := by
  induction c with
  | nil => simp [counterGet]
  | cons kv rest ih =>
    obtain ⟨k0, n0⟩ := kv
    by_cases h0 : k0 = k
    · simp only [counterGet, if_pos h0]
      exact h (k0, n0) (List.mem_cons_self _ _)
    · simp only [counterGet, if_neg h0]
      exact ih (fun kv hkv => h kv (List.mem_cons_of_mem _ hkv))

/-- Helper: `langCounterAux` preserves pointwise count differences of its
accumulator. -/
theorem langCounterAux_diff (c : List (String × Nat)) (d : String → Nat) :
    ∀ A1 A2, (∀ l, counterGet A1 l = counterGet A2 l + d l) →
      ∀ l, counterGet (langCounterAux A1 c) l =
        counterGet (langCounterAux A2 c) l + d l := by
  induction c with
  | nil =>
    intro A1 A2 h l
    exact h l
  | cons kv rest ih =>
    intro A1 A2 h l
    have e1 : langCounterAux A1 (kv :: rest) =
      langCounterAux (langStep A1 kv) rest := rfl
    have e2 : langCounterAux A2 (kv :: rest) =
      langCounterAux (langStep A2 kv) rest := rfl
    rw [e1, e2]
    refine ih (langStep A1 kv) (langStep A2 kv) ?_ l
    intro l'
    unfold langStep
    cases extToLang kv.1 with
    | none => exact h l'
    | some lang =>
      rw [counterGet_counterAdd, counterGet_counterAdd, h l']
      omega

/-- Helper: adding `n` occurrences of an extension to the extension
counter adds `n` to exactly its language's count. -/
theorem langCounterAux_counterAdd (c : List (String × Nat)) :
    ∀ acc ext n lang,
      counterGet (langCounterAux acc (counterAdd c ext n)) lang =
        counterGet (langCounterAux acc c) lang +
          (if extToLang ext = some lang then n else 0) := by
  induction c with
  | nil =>
    intro acc ext n lang
    have e1 : langCounterAux acc (counterAdd [] ext n) =
      langStep acc (ext, n) := rfl
    have e2 : langCounterAux acc [] = acc := rfl
    rw [e1, e2]
    unfold langStep
    cases he : extToLang ext with
    | none => simp
    | some lang0 =>
      rw [counterGet_counterAdd]
      congr 1
      by_cases h : lang0 = lang
      · simp [h]
      · simp [h]
  | cons kv rest ih =>
    intro acc ext n lang
    obtain ⟨k0, n0⟩ := kv
    by_cases h0 : k0 = ext
    · subst h0
      have e1 : counterAdd ((k0, n0) :: rest) k0 n = (k0, n0 + n) :: rest := by
        simp [counterAdd]
      rw [e1]
      have e2 : langCounterAux acc ((k0, n0 + n) :: rest) =
        langCounterAux (langStep acc (k0, n0 + n)) rest := rfl
      have e3 : langCounterAux acc ((k0, n0) :: rest) =
        langCounterAux (langStep acc (k0, n0)) rest := rfl
      rw [e2, e3]
      refine langCounterAux_diff rest
        (fun l => if extToLang k0 = some l then n else 0)
        (langStep acc (k0, n0 + n)) (langStep acc (k0, n0)) ?_ lang
      intro l'
      unfold langStep
      cases he : extToLang (k0, n0 + n).1 with
      | none => simp
      | some lang0 =>
        show counterGet (counterAdd acc lang0 (n0 + n)) l' =
          counterGet (counterAdd acc lang0 n0) l' +
            (if some lang0 = some l' then n else 0)
        rw [counterGet_counterAdd, counterGet_counterAdd]
        by_cases h : lang0 = l'
        · rw [if_pos h, if_pos h, if_pos (by rw [h])]
          omega
        · rw [if_neg h, if_neg h, if_neg (by simp [h])]
    · have e1 : counterAdd ((k0, n0) :: rest) ext n =
        (k0, n0) :: counterAdd rest ext n := by
        simp [counterAdd, h0]
      rw [e1]
      have e2 : langCounterAux acc ((k0, n0) :: counterAdd rest ext n) =
        langCounterAux (langStep acc (k0, n0)) (counterAdd rest ext n) := rfl
      have e3 : langCounterAux acc ((k0, n0) :: rest) =
        langCounterAux (langStep acc (k0, n0)) rest := rfl
      rw [e2, e3]
      exact ih (langStep acc (k0, n0)) ext n lang

/-- Helper: counting the captured paths of one diff text adds exactly its
per-language occurrence counts. -/
theorem langCounter_extStep_fold (ps : List String) :
    ∀ acc lang, counterGet (langCounter (ps.foldl extStep acc)) lang =
      counterGet (langCounter acc) lang +
        (ps.filterMap extOfPath).countP (fun e => extToLang e == some lang) := by
  induction ps with
  | nil =>
    intro acc lang
    simp
  | cons p ps ih =>
    intro acc lang
    have e1 : (p :: ps).foldl extStep acc = ps.foldl extStep (extStep acc p) := by
      rw [List.foldl_cons]
    rw [e1, ih]
    unfold extStep
    cases he : extOfPath p with
    | none => simp [List.filterMap_cons, he]
    | some ext =>
      unfold langCounter
      rw [langCounterAux_counterAdd]
      simp only [List.filterMap_cons, he, List.countP_cons]
      by_cases h : extToLang ext = some lang
      · rw [if_pos h]
        have hb : (extToLang ext == some lang) = true := by
          simp [h]
        simp [hb]
        omega
      · rw [if_neg h]
        have hb : (extToLang ext == some lang) = false := by
          simp [h]
        simp [hb]

/-- Helper: the full extension-counter fold computes, at the language
level, the per-language occurrence counts over all diff texts. -/
theorem langCounter_extTextStep_fold (ts : List String) :
    ∀ acc lang, counterGet (langCounter (ts.foldl extTextStep acc)) lang =
      counterGet (langCounter acc) lang +
        ((ts.filter (fun t => t != "")).flatMap
          (fun txt => (diffPaths txt).filterMap extOfPath)).countP
            (fun e => extToLang e == some lang) := by
  induction ts with
  | nil =>
    intro acc lang
    simp
  | cons t ts ih =>
    intro acc lang
    have e1 : (t :: ts).foldl extTextStep acc =
      ts.foldl extTextStep (extTextStep acc t) := rfl
    rw [e1, ih]
    unfold extTextStep
    by_cases ht : t = ""
    · simp [ht]
    · rw [if_neg ht, langCounter_extStep_fold]
      have hf : (t :: ts).filter (fun t => t != "") =
        t :: ts.filter (fun t => t != "") := by
        simp [List.filter_cons, ht]
      rw [hf, List.flatMap_cons, List.countP_append]
      omega

/-- Helper: the language counter of the extension counter computes the
semantic per-language occurrence count. -/
theorem counterGet_langCounter_extCounter (ts : List String) (lang : String) :
    counterGet (langCounter (extCounter ts)) lang = langOcc ts lang := by
  unfold extCounter langOcc allExts
  rw [langCounter_extTextStep_fold]
  simp [langCounter, langCounterAux, counterGet]

/-- Helper: keys created by counting captured paths come from the counted
occurrences. -/
theorem keys_extStep_fold (ps : List String) :
    ∀ acc x, x ∈ ((ps.foldl extStep acc).map Prod.fst) →
      x ∈ acc.map Prod.fst ∨ x ∈ ps.filterMap extOfPath := by
  induction ps with
  | nil =>
    intro acc x h
    exact Or.inl h
  | cons p ps ih =>
    intro acc x h
    have e1 : (p :: ps).foldl extStep acc = ps.foldl extStep (extStep acc p) := by
      rw [List.foldl_cons]
    rw [e1] at h
    rcases ih (extStep acc p) x h with h2 | h2
    · unfold extStep at h2
      cases he : extOfPath p with
      | none =>
        rw [he] at h2
        exact Or.inl h2
      | some ext =>
        rw [he] at h2
        rcases mem_keys_counterAdd.mp h2 with h3 | h3
        · exact Or.inl h3
        · refine Or.inr ?_
          simp [List.filterMap_cons, he, h3]
    · refine Or.inr ?_
      cases he : extOfPath p with
      | none =>
        rw [List.filterMap_cons, he]
        exact h2
      | some ext =>
        rw [List.filterMap_cons, he]
        exact List.mem_cons_of_mem _ h2

/-- Helper: every key of the extension counter is a counted occurrence. -/
theorem keys_extCounter (ts : List String) :
    ∀ x, x ∈ ((extCounter ts).map Prod.fst) → x ∈ allExts ts := by
  unfold extCounter allExts
  suffices h : ∀ acc x, x ∈ ((ts.foldl extTextStep acc).map Prod.fst) →
      x ∈ acc.map Prod.fst ∨ x ∈ (ts.filter (fun t => t != "")).flatMap
        (fun txt => (diffPaths txt).filterMap extOfPath) by
    intro x hx
    rcases h [] x hx with h2 | h2
    · simp at h2
    · exact h2
  induction ts with
  | nil =>
    intro acc x h
    exact Or.inl h
  | cons t ts ih =>
    intro acc x h
    have e1 : (t :: ts).foldl extTextStep acc =
      ts.foldl extTextStep (extTextStep acc t) := rfl
    rw [e1] at h
    rcases ih (extTextStep acc t) x h with h2 | h2
    · unfold extTextStep at h2
      by_cases ht : t = ""
      · rw [if_pos ht] at h2
        exact Or.inl h2
      · rw [if_neg ht] at h2
        rcases keys_extStep_fold (diffPaths t) acc x h2 with h3 | h3
        · exact Or.inl h3
        · refine Or.inr ?_
          have hf : (t :: ts).filter (fun t => t != "") =
            t :: ts.filter (fun t => t != "") := by
            simp [List.filter_cons, ht]
          rw [hf, List.flatMap_cons, List.mem_append]
          exact Or.inl h3
    · refine Or.inr ?_
      by_cases ht : t = ""
      · have hf : (t :: ts).filter (fun t => t != "") =
          ts.filter (fun t => t != "") := by
          simp [List.filter_cons, ht]
        rw [hf]
        exact h2
      · have hf : (t :: ts).filter (fun t => t != "") =
          t :: ts.filter (fun t => t != "") := by
          simp [List.filter_cons, ht]
        rw [hf, List.flatMap_cons, List.mem_append]
        exact Or.inr h2

/-- Helper: the path fold preserves key uniqueness. -/
theorem nodup_keys_extStep_fold (ps : List String) :
    ∀ acc, (acc.map Prod.fst).Nodup →
      (((ps.foldl extStep acc).map Prod.fst)).Nodup := by
  induction ps with
  | nil =>
    intro acc h
    exact h
  | cons p ps ih =>
    intro acc h
    have e1 : (p :: ps).foldl extStep acc = ps.foldl extStep (extStep acc p) := by
      rw [List.foldl_cons]
    rw [e1]
    refine ih (extStep acc p) ?_
    unfold extStep
    cases extOfPath p with
    | none => exact h
    | some ext => exact nodup_keys_counterAdd h

/-- Helper: the extension counter has unique keys. -/
theorem nodup_keys_extCounter (ts : List String) :
    (((extCounter ts).map Prod.fst)).Nodup := by
  unfold extCounter
  suffices h : ∀ acc, (acc.map Prod.fst).Nodup →
      (((ts.foldl extTextStep acc).map Prod.fst)).Nodup from h [] (by simp)
  induction ts with
  | nil =>
    intro acc h
    exact h
  | cons t ts ih =>
    intro acc h
    have e1 : (t :: ts).foldl extTextStep acc =
      ts.foldl extTextStep (extTextStep acc t) := rfl
    rw [e1]
    refine ih (extTextStep acc t) ?_
    unfold extTextStep
    by_cases ht : t = ""
    · rw [if_pos ht]
      exact h
    · rw [if_neg ht]
      exact nodup_keys_extStep_fold (diffPaths t) acc h

/-- Helper: the language fold preserves key uniqueness. -/
theorem nodup_keys_langCounterAux (c : List (String × Nat)) :
    ∀ acc, (acc.map Prod.fst).Nodup →
      ((langCounterAux acc c).map Prod.fst).Nodup := by
  induction c with
  | nil =>
    intro acc h
    exact h
  | cons kv rest ih =>
    intro acc h
    have e1 : langCounterAux acc (kv :: rest) =
      langCounterAux (langStep acc kv) rest := rfl
    rw [e1]
    refine ih (langStep acc kv) ?_
    unfold langStep
    cases extToLang kv.1 with
    | none => exact h
    | some lang => exact nodup_keys_counterAdd h

/-- Helper: a counter whose keys are all unrecognized contributes no
language counts. -/
theorem langCounterAux_unrecognized (c : List (String × Nat)) :
    ∀ acc, (∀ kv ∈ c, extToLang kv.1 = none) → langCounterAux acc c = acc := by
  induction c with
  | nil =>
    intro acc _
    rfl
  | cons kv rest ih =>
    intro acc h
    have e1 : langCounterAux acc (kv :: rest) =
      langCounterAux (langStep acc kv) rest := rfl
    rw [e1]
    have hs : langStep acc kv = acc := by
      unfold langStep
      rw [h kv (List.mem_cons_self _ _)]
    rw [hs]
    exact ih acc (fun kv2 h2 => h kv2 (List.mem_cons_of_mem _ h2))

/-- Helper: `most_common`'s fold started from a seed yields an entry of
maximal count among the seed and the list. -/
theorem bestStep_fold (c : List (String × Nat)) :
    ∀ b : String × Nat, ∃ p : String × Nat,
      c.foldl bestStep (some b) = some p ∧ (p = b ∨ p ∈ c) ∧ b.2 ≤ p.2 ∧
      ∀ kv ∈ c, kv.2 ≤ p.2 := by
  induction c with
  | nil =>
    intro b
    exact ⟨b, rfl, Or.inl rfl, Nat.le_refl _, by simp⟩
  | cons x xs ih =>
    intro b
    have e1 : (x :: xs).foldl bestStep (some b) =
      xs.foldl bestStep (bestStep (some b) x) := rfl
    by_cases hx : x.2 > b.2
    · have e2 : bestStep (some b) x = some x := by
        simp [bestStep, hx]
      obtain ⟨p, hp, hmem, hle, hall⟩ := ih x
      refine ⟨p, by rw [e1, e2]; exact hp, ?_, ?_, ?_⟩
      · rcases hmem with h | h
        · exact Or.inr (h ▸ List.mem_cons_self _ _)
        · exact Or.inr (List.mem_cons_of_mem _ h)
      · exact Nat.le_trans (Nat.le_of_lt hx) hle
      · intro kv hkv
        rcases List.mem_cons.mp hkv with h | h
        · rw [h]
          exact hle
        · exact hall kv h
    · have e2 : bestStep (some b) x = some b := by
        simp [bestStep, hx]
      obtain ⟨p, hp, hmem, hle, hall⟩ := ih b
      refine ⟨p, by rw [e1, e2]; exact hp, ?_, hle, ?_⟩
      · rcases hmem with h | h
        · exact Or.inl h
        · exact Or.inr (List.mem_cons_of_mem _ h)
      · intro kv hkv
        rcases List.mem_cons.mp hkv with h | h
        · rw [h]
          exact Nat.le_trans (Nat.le_of_not_lt hx) hle
        · exact hall kv h

/-- C8: for every list of diff texts, language inference returns "Python"
whenever no path with a recognized extension occurs (in particular when
all texts are empty); and whenever some recognized extension occurs, the
returned language has a positive recognized-extension occurrence count
across the texts that no other language's count exceeds. -/
theorem infer_language_spec (diffTexts : List String) :
    ((∀ ext ∈ allExts diffTexts, extToLang ext = none) →
      (infer_language_from_diff_text diffTexts).1 = "Python")
    ∧ (∀ ext0 ∈ allExts diffTexts, ∀ lang0, extToLang ext0 = some lang0 →
        0 < langOcc diffTexts (infer_language_from_diff_text diffTexts).1 ∧
        ∀ lang, langOcc diffTexts lang ≤
          langOcc diffTexts (infer_language_from_diff_text diffTexts).1) := by
  constructor
  · intro hall
    have hkeys : ∀ kv ∈ extCounter diffTexts, extToLang kv.1 = none := by
      intro kv hkv
      exact hall kv.1 (keys_extCounter diffTexts kv.1
        (List.mem_map.mpr ⟨kv, hkv, rfl⟩))
    have hlc : langCounter (extCounter diffTexts) = [] :=
      langCounterAux_unrecognized (extCounter diffTexts) [] hkeys
    simp only [infer_language_from_diff_text]
    rw [hlc]
    rfl
  · intro ext0 hext0 lang0 hl0
    have hpos : 0 < langOcc diffTexts lang0 := by
      unfold langOcc
      rw [List.countP_pos_iff]
      exact ⟨ext0, hext0, by simp [hl0]⟩
    have hget0 : counterGet (langCounter (extCounter diffTexts)) lang0 =
      langOcc diffTexts lang0 := counterGet_langCounter_extCounter _ _
    have hmem0 : lang0 ∈ (langCounter (extCounter diffTexts)).map Prod.fst := by
      by_contra hcontra
      rw [counterGet_of_not_mem hcontra] at hget0
      omega
    cases hc : langCounter (extCounter diffTexts) with
    | nil =>
      rw [hc] at hmem0
      simp at hmem0
    | cons x xs =>
      obtain ⟨p, hp, hpmem, hxle, hallp⟩ := bestStep_fold xs x
      obtain ⟨pk, pn⟩ := p
      have hmc : mostCommonKey (langCounter (extCounter diffTexts)) = some pk := by
        unfold mostCommonKey
        rw [hc]
        have e1 : (x :: xs).foldl bestStep none = xs.foldl bestStep (some x) := rfl
        rw [e1, hp]
        rfl
      have hres : (infer_language_from_diff_text diffTexts).1 = pk := by
        simp only [infer_language_from_diff_text]
        rw [hmc]
      have hpentry : (pk, pn) ∈ langCounter (extCounter diffTexts) := by
        rw [hc]
        rcases hpmem with h | h
        · exact h ▸ List.mem_cons_self _ _
        · exact List.mem_cons_of_mem _ h
      have hnd : ((langCounter (extCounter diffTexts)).map Prod.fst).Nodup :=
        nodup_keys_langCounterAux (extCounter diffTexts) [] (by simp)
      have hgetp : counterGet (langCounter (extCounter diffTexts)) pk = pn :=
        counterGet_of_mem hnd hpentry
      have hoccp : langOcc diffTexts pk = pn := by
        rw [← counterGet_langCounter_extCounter, hgetp]
      have hmax : ∀ lang, langOcc diffTexts lang ≤ langOcc diffTexts pk := by
        intro lang
        rw [← counterGet_langCounter_extCounter, hoccp]
        refine counterGet_le_of_forall ?_ lang
        intro kv hkv
        rw [hc] at hkv
        rcases List.mem_cons.mp hkv with h | h
        · rw [h]
          exact hxle
        · exact hallp kv h
      rw [hres]
      exact ⟨Nat.lt_of_lt_of_le hpos (hmax lang0), hmax⟩

/-- C8 witness: on a concrete pair — a solution diff touching two JS
files, a test diff touching one Python file — the inferred language has a
positive occurrence count that Python's count does not exceed. -/
theorem infer_language_spec_witness :
    0 < langOcc ["diff --git a/y.js b/y.js\ndiff --git a/z.js b/z.js\n",
        "diff --git a/x.py b/x.py\n"]
      (infer_language_from_diff_text
        ["diff --git a/y.js b/y.js\ndiff --git a/z.js b/z.js\n",
         "diff --git a/x.py b/x.py\n"]).1 ∧
    langOcc ["diff --git a/y.js b/y.js\ndiff --git a/z.js b/z.js\n",
        "diff --git a/x.py b/x.py\n"] "Python" ≤
      langOcc ["diff --git a/y.js b/y.js\ndiff --git a/z.js b/z.js\n",
          "diff --git a/x.py b/x.py\n"]
        (infer_language_from_diff_text
          ["diff --git a/y.js b/y.js\ndiff --git a/z.js b/z.js\n",
           "diff --git a/x.py b/x.py\n"]).1 :=
  ⟨((infer_language_spec ["diff --git a/y.js b/y.js\ndiff --git a/z.js b/z.js\n",
      "diff --git a/x.py b/x.py\n"]).2 ".js" (by decide) "JS/TS" rfl).1,
   ((infer_language_spec ["diff --git a/y.js b/y.js\ndiff --git a/z.js b/z.js\n",
      "diff --git a/x.py b/x.py\n"]).2 ".js" (by decide) "JS/TS" rfl).2 "Python"⟩

/-- C9: the fail-to-pass report computation is a total function of the row
list, and on empty input the ratio is 0 through the guarded division
(`if total else 0.0`) while the PASS_TO_PASS min and max are both 0
(`min(...) if ptp_sizes else 0`) instead of raising on an empty
sequence. -/
theorem f2pReport_empty_safe (topN : Int) :
    (f2pReport [] topN).f2p_ratio = 0 ∧
    (f2pReport [] topN).ptp_min = 0 ∧
    (f2pReport [] topN).ptp_max = 0 := by
  refine ⟨?_, rfl, rfl⟩
  simp [f2pReport]

/-- Helper: `appendAt` appends to exactly the bucket of its key. -/
theorem dictGet_appendAt (m : List (Int × List Int)) (pr issue pr' : Int) :
    dictGet (appendAt m pr issue) pr' =
      if pr = pr' then dictGet m pr' ++ [issue] else dictGet m pr' := by
  induction m with
  | nil =>
    by_cases h : pr = pr' <;> simp [appendAt, dictGet, h]
  | cons kv rest ih =>
    obtain ⟨p0, is0⟩ := kv
    by_cases h0 : p0 = pr
    · subst h0
      by_cases h1 : p0 = pr' <;> simp [appendAt, dictGet, h1]
    · by_cases h1 : p0 = pr'
      · subst h1
        have hne : ¬ pr = p0 := fun he => h0 he.symm
        simp [appendAt, dictGet, h0, hne]
      · simp [appendAt, dictGet, h0, h1, ih]

/-- Helper: the keys of `appendAt m pr i` are the keys of `m` plus `pr`. -/
theorem mem_keys_appendAt {m : List (Int × List Int)} {pr issue x : Int} :
    x ∈ (appendAt m pr issue).map Prod.fst ↔ x ∈ m.map Prod.fst ∨ x = pr := by
  induction m with
  | nil => simp [appendAt]
  | cons kv rest ih =>
    obtain ⟨p0, is0⟩ := kv
    by_cases h0 : p0 = pr
    · subst h0
      simp [appendAt]
      tauto
    · simp [appendAt, h0, ih]
      tauto

/-- Helper: `appendAt` preserves key uniqueness. -/
theorem nodup_keys_appendAt {m : List (Int × List Int)} {pr issue : Int}
    (h : (m.map Prod.fst).Nodup) : ((appendAt m pr issue).map Prod.fst).Nodup := by
  induction m with
  | nil => simp [appendAt]
  | cons kv rest ih =>
    obtain ⟨p0, is0⟩ := kv
    simp only [List.map_cons, List.nodup_cons] at h
    by_cases h0 : p0 = pr
    · subst h0
      have he : appendAt ((p0, is0) :: rest) p0 issue =
        (p0, is0 ++ [issue]) :: rest := by
        simp [appendAt]
      rw [he]
      simp only [List.map_cons, List.nodup_cons]
      exact ⟨h.1, h.2⟩
    · have hrest := ih h.2
      simp only [appendAt, if_neg h0, List.map_cons, List.nodup_cons]
      refine ⟨?_, hrest⟩
      intro hmem
      rcases mem_keys_appendAt.mp hmem with hm | he
      · exact h.1 hm
      · exact h0 he

/-- Helper: the bucket of `pr` collects exactly the issue numbers of the
matching (repo, pr) entries, in input order. -/
theorem dictGet_prMapOf_fold (items : List MapEntry) (repo : String) :
    ∀ m pr, dictGet (items.foldl (prStep repo) m) pr =
      dictGet m pr ++
        ((items.filter (fun it => it.repo == repo && it.pr_number == pr)).map
          (fun it => it.issue_number)) := by
  induction items with
  | nil =>
    intro m pr
    simp
  | cons it rest ih =>
    intro m pr
    have e1 : (it :: rest).foldl (prStep repo) m =
      rest.foldl (prStep repo) (prStep repo m it) := by
      rw [List.foldl_cons]
    rw [e1, ih]
    unfold prStep
    by_cases hr : it.repo = repo
    · by_cases hp : it.pr_number = pr
      · have hb : (it.repo == repo) = true := by simp [hr]
        have hf : (fun it => it.repo == repo && it.pr_number == pr) it = true := by
          simp [hr, hp]
        rw [if_pos hb, dictGet_appendAt, if_pos hp]
        simp only [List.filter_cons, hf, List.map_cons]
        rw [List.append_assoc]
        rfl
      · have hb : (it.repo == repo) = true := by simp [hr]
        have hf : (fun it => it.repo == repo && it.pr_number == pr) it = false := by
          simp [hr, hp]
        rw [if_pos hb, dictGet_appendAt, if_neg hp]
        simp only [List.filter_cons, hf]
        simp
    · have hb : (it.repo == repo) = false := by simp [hr]
      have hf : (fun it => it.repo == repo && it.pr_number == pr) it = false := by
        simp [hr]
      rw [if_neg (by simp [hb])]
      simp only [List.filter_cons, hf]
      simp

/-- Helper: membership in a `pr` bucket of the built dict means a matching
input entry. -/
theorem mem_dictGet_prMapOf (items : List MapEntry) (repo : String) (pr i : Int) :
    i ∈ dictGet (prMapOf items repo) pr ↔
      ∃ it ∈ items, it.repo = repo ∧ it.pr_number = pr ∧ it.issue_number = i := by
  unfold prMapOf
  rw [dictGet_prMapOf_fold]
  simp only [dictGet, List.nil_append, List.mem_map, List.mem_filter]
  constructor
  · rintro ⟨it, ⟨hmem, hcond⟩, hiss⟩
    simp only [Bool.and_eq_true, beq_iff_eq] at hcond
    exact ⟨it, hmem, hcond.1, hcond.2, hiss⟩
  · rintro ⟨it, hmem, hr, hp, hi⟩
    exact ⟨it, ⟨hmem, by simp [hr, hp]⟩, hi⟩

/-- Helper: the keys of the built dict are the PR numbers of the matching
input entries. -/
theorem mem_keys_prMapOf (items : List MapEntry) (repo : String) (x : Int) :
    x ∈ (prMapOf items repo).map Prod.fst ↔
      ∃ it ∈ items, it.repo = repo ∧ it.pr_number = x := by
  unfold prMapOf
  suffices h : ∀ m, x ∈ (items.foldl (prStep repo) m).map Prod.fst ↔
      x ∈ m.map Prod.fst ∨ ∃ it ∈ items, it.repo = repo ∧ it.pr_number = x by
    rw [h []]
    simp
  induction items with
  | nil =>
    intro m
    simp
  | cons it rest ih =>
    intro m
    have e1 : (it :: rest).foldl (prStep repo) m =
      rest.foldl (prStep repo) (prStep repo m it) := by
      rw [List.foldl_cons]
    rw [e1, ih]
    unfold prStep
    by_cases hr : it.repo = repo
    · rw [if_pos (by simp [hr])]
      rw [mem_keys_appendAt]
      constructor
      · rintro ((h | h) | h)
        · exact Or.inl h
        · exact Or.inr ⟨it, List.mem_cons_self _ _, hr, h.symm⟩
        · obtain ⟨it2, hm2, h2⟩ := h
          exact Or.inr ⟨it2, List.mem_cons_of_mem _ hm2, h2⟩
      · rintro (h | ⟨it2, hm2, h2, h3⟩)
        · exact Or.inl (Or.inl h)
        · rcases List.mem_cons.mp hm2 with he | hm3
          · subst he
            exact Or.inl (Or.inr h3.symm)
          · exact Or.inr ⟨it2, hm3, h2, h3⟩
    · rw [if_neg (by simp [hr])]
      constructor
      · rintro (h | h)
        · exact Or.inl h
        · obtain ⟨it2, hm2, h2⟩ := h
          exact Or.inr ⟨it2, List.mem_cons_of_mem _ hm2, h2⟩
      · rintro (h | ⟨it2, hm2, h2, h3⟩)
        · exact Or.inl h
        · rcases List.mem_cons.mp hm2 with he | hm3
          · subst he
            exact absurd h2 hr
          · exact Or.inr ⟨it2, hm3, h2, h3⟩

/-- Helper: the built dict has unique keys. -/
theorem nodup_keys_prMapOf (items : List MapEntry) (repo : String) :
    ((prMapOf items repo).map Prod.fst).Nodup := by
  unfold prMapOf
  suffices h : ∀ m, (m.map Prod.fst).Nodup →
      ((items.foldl (prStep repo) m).map Prod.fst).Nodup from h [] (by simp)
  induction items with
  | nil =>
    intro m h
    exact h
  | cons it rest ih =>
    intro m h
    have e1 : (it :: rest).foldl (prStep repo) m =
      rest.foldl (prStep repo) (prStep repo m it) := by
      rw [List.foldl_cons]
    rw [e1]
    refine ih (prStep repo m it) ?_
    unfold prStep
    by_cases hr : (it.repo == repo) = true
    · rw [if_pos hr]
      exact nodup_keys_appendAt h
    · rw [if_neg hr]
      exact h

/-- Helper: `sorted(set(xs))` is strictly ascending. -/
theorem pySortedSet_strict (xs : List Int) :
    (pySortedSet xs).Pairwise (· < ·) := by
  unfold pySortedSet
  have hs : List.Sorted (· ≤ ·) (List.insertionSort (· ≤ ·) xs.dedup) :=
    List.sorted_insertionSort _ _
  have hnd : (List.insertionSort (· ≤ ·) xs.dedup).Nodup :=
    (List.perm_insertionSort _ _).nodup_iff.mpr (List.nodup_dedup xs)
  exact List.Pairwise.imp (fun h => lt_of_le_of_ne h.1 h.2)
    (List.Pairwise.and hs hnd)

/-- Helper: membership in `sorted(set(xs))` is membership in `xs`. -/
theorem mem_pySortedSet {xs : List Int} {a : Int} :
    a ∈ pySortedSet xs ↔ a ∈ xs := by
  unfold pySortedSet
  rw [(List.perm_insertionSort _ _).mem_iff, List.mem_dedup]

/-- Helper: `sorted(set(·))` depends only on membership. -/
theorem pySortedSet_eq_of_mem_iff {xs ys : List Int}
    (h : ∀ a, a ∈ xs ↔ a ∈ ys) : pySortedSet xs = pySortedSet ys := by
  unfold pySortedSet
  refine List.eq_of_perm_of_sorted ?_ (List.sorted_insertionSort _ _)
    (List.sorted_insertionSort _ _)
  refine (List.perm_insertionSort _ _).trans
    (List.Perm.trans ?_ (List.perm_insertionSort _ _).symm)
  rw [List.perm_ext_iff_of_nodup (List.nodup_dedup xs) (List.nodup_dedup ys)]
  intro a
  rw [List.mem_dedup, List.mem_dedup]
  exact h a

/-- Helper: sorted unique dict keys are strictly ascending. -/
theorem pySortedKeys_strict {m : List (Int × List Int)}
    (h : (m.map Prod.fst).Nodup) : (pySortedKeys m).Pairwise (· < ·) := by
  unfold pySortedKeys
  have hs : List.Sorted (· ≤ ·) (List.insertionSort (· ≤ ·) (m.map Prod.fst)) :=
    List.sorted_insertionSort _ _
  have hnd : (List.insertionSort (· ≤ ·) (m.map Prod.fst)).Nodup :=
    (List.perm_insertionSort _ _).nodup_iff.mpr h
  exact List.Pairwise.imp (fun h2 => lt_of_le_of_ne h2.1 h2.2)
    (List.Pairwise.and hs hnd)

/-- Helper: membership in the sorted keys is key membership. -/
theorem mem_pySortedKeys {m : List (Int × List Int)} {a : Int} :
    a ∈ pySortedKeys m ↔ a ∈ m.map Prod.fst := by
  unfold pySortedKeys
  rw [(List.perm_insertionSort _ _).mem_iff]

/-- Helper: for unique keys, the sorted key list depends only on key
membership. -/
theorem pySortedKeys_eq_of_mem_iff {m1 m2 : List (Int × List Int)}
    (h1 : (m1.map Prod.fst).Nodup) (h2 : (m2.map Prod.fst).Nodup)
    (h : ∀ a, a ∈ m1.map Prod.fst ↔ a ∈ m2.map Prod.fst) :
    pySortedKeys m1 = pySortedKeys m2 := by
  unfold pySortedKeys
  refine List.eq_of_perm_of_sorted ?_ (List.sorted_insertionSort _ _)
    (List.sorted_insertionSort _ _)
  refine (List.perm_insertionSort _ _).trans
    (List.Perm.trans ?_ (List.perm_insertionSort _ _).symm)
  rw [List.perm_ext_iff_of_nodup h1 h2]
  exact h

/-- C10: for every valid issue-PR map and repository, the generated
pull2issue file lists pull-request numbers in strictly ascending order;
each PR's issue list is strictly ascending (deduplicated, sorted) and
holds exactly the issue numbers the input pairs with that (repo, PR); and
the content is invariant under permuting the input entries, i.e.
independent of input order. -/
theorem pull2issue_spec (items items2 : List MapEntry) (repo : String) :
    ((pull2issueLines items repo).map Prod.fst).Pairwise (· < ·)
    ∧ (∀ pr issues, (pr, issues) ∈ pull2issueLines items repo →
        issues.Pairwise (· < ·) ∧
        ∀ i, i ∈ issues ↔
          ∃ it ∈ items, it.repo = repo ∧ it.pr_number = pr ∧ it.issue_number = i)
    ∧ (items.Perm items2 →
        pull2issueLines items repo = pull2issueLines items2 repo) := by
  refine ⟨?_, ?_, ?_⟩
  · have e : (pull2issueLines items repo).map Prod.fst =
      pySortedKeys (prMapOf items repo) := by
      unfold pull2issueLines
      rw [List.map_map]
      exact List.map_id' _
    rw [e]
    exact pySortedKeys_strict (nodup_keys_prMapOf items repo)
  · intro pr issues hmem
    unfold pull2issueLines at hmem
    obtain ⟨pr2, hpr2, heq⟩ := List.mem_map.mp hmem
    obtain ⟨h1, h2⟩ := Prod.mk.injEq .. ▸ heq
    subst h1
    subst h2
    constructor
    · exact pySortedSet_strict _
    · intro i
      rw [mem_pySortedSet, mem_dictGet_prMapOf]
  · intro hperm
    unfold pull2issueLines
    have hkeys : pySortedKeys (prMapOf items repo) =
      pySortedKeys (prMapOf items2 repo) := by
      refine pySortedKeys_eq_of_mem_iff (nodup_keys_prMapOf _ _)
        (nodup_keys_prMapOf _ _) ?_
      intro a
      rw [mem_keys_prMapOf, mem_keys_prMapOf]
      constructor
      · rintro ⟨it, hm, h⟩
        exact ⟨it, hperm.mem_iff.mp hm, h⟩
      · rintro ⟨it, hm, h⟩
        exact ⟨it, hperm.mem_iff.mpr hm, h⟩
    rw [hkeys]
    refine List.map_congr_left ?_
    intro pr hpr
    congr 1
    refine pySortedSet_eq_of_mem_iff ?_
    intro i
    rw [mem_dictGet_prMapOf, mem_dictGet_prMapOf]
    constructor
    · rintro ⟨it, hm, h⟩
      exact ⟨it, hperm.mem_iff.mp hm, h⟩
    · rintro ⟨it, hm, h⟩
      exact ⟨it, hperm.mem_iff.mpr hm, h⟩

/-- C10 witness: a concrete three-entry map and a permutation of it
produce the same pull2issue content for the repository. -/
theorem pull2issue_spec_witness :
    pull2issueLines
        [⟨"o/r", 9, 102⟩, ⟨"o/r", 5, 101⟩, ⟨"o/r", 9, 101⟩] "o/r" =
      pull2issueLines
        [⟨"o/r", 9, 101⟩, ⟨"o/r", 5, 101⟩, ⟨"o/r", 9, 102⟩] "o/r" :=
  (pull2issue_spec
    [⟨"o/r", 9, 102⟩, ⟨"o/r", 5, 101⟩, ⟨"o/r", 9, 101⟩]
    [⟨"o/r", 9, 101⟩, ⟨"o/r", 5, 101⟩, ⟨"o/r", 9, 102⟩] "o/r").2.2 (by decide)

end SBL
